import Mathlib

/-!
Verification development for the `smart_document_analyser` repository.

The Python modules `modules/math_extractor.py`, `modules/ner_processor.py`
and `modules/summarizer.py` are shallowly embedded over `List Char`.
Python regular expressions are embedded by a small backtracking pattern
engine (`Pat`) whose combinators mirror the constructs actually used by
the source patterns (single-character classes with greedy `*`/`+`/`?`,
lazy `+?`, literal words, alternation tried left to right, and `\b`
word boundaries).  `re.findall` / `re.finditer` are embedded by a scan
that, at each position, takes the first match in backtracking preference
order and resumes after its end, as CPython does.

Conventions:
* strings are `List Char`; Python's arbitrary-precision integers are
  `Int` where the source can go negative and `Nat` elsewhere;
* Python `\s` is the six ASCII whitespace characters; `\w`/`isalnum`
  are embedded for the ASCII range plus Greek letters (the only
  non-ASCII word characters this code base manipulates);
* CPython `set` iteration order is unspecified; the embedding keeps
  first-insertion order, and `list.sort` (stable) is embedded by a
  stable insertion sort.
-/

set_option maxRecDepth 100000

abbrev Str := List Char

/-- The six characters matched by Python `\s` (ASCII range). -/
def pySpaceChars : Str := [' ', '\t', '\n', '\r', '\x0b', '\x0c']

def isPySpace (c : Char) : Bool := pySpaceChars.contains c

/-- Python `str.strip()` with no argument: remove leading and trailing whitespace. -/
def pyStrip (s : Str) : Str :=
  ((s.dropWhile isPySpace).reverse.dropWhile isPySpace).reverse

/-- Greek letters (the `α-ωΑ-Ω` ranges used by the source patterns). -/
def isGreekChar (c : Char) : Bool :=
  (0x391 ≤ c.toNat && c.toNat ≤ 0x3A9) || (0x3B1 ≤ c.toNat && c.toNat ≤ 0x3C9)

/-- Embedding of Python `str.isalnum` restricted to the characters this
code base manipulates: ASCII alphanumerics and Greek letters. -/
def pyIsAlnum (c : Char) : Bool := c.isAlphanum || isGreekChar c

/-- Embedding of Python `\w` (word character): alphanumeric or underscore. -/
def pyIsWord (c : Char) : Bool := pyIsAlnum c || c == '_'

/-- ASCII lower-casing, embedding `str.lower()` on the characters that
the false-positive vocabulary checks can notice. -/
def pyLower (c : Char) : Char :=
  if 'A' ≤ c && c ≤ 'Z' then Char.ofNat (c.toNat + 32) else c

def lowerStr (s : Str) : Str := s.map pyLower

/-- `pre` is a prefix of `s`. -/
def begins : Str → Str → Bool
  | [], _ => true
  | _ :: _, [] => false
  | a :: pre, b :: s => a == b && begins pre s

/-- Python's `needle in hay` substring test. -/
def hasSub (n : Str) : Str → Bool
  | [] => begins n []
  | s@(_ :: rest) => begins n s || hasSub n rest

/-- First occurrence of `n` in `hay` (Python `str.find`, as `Option`). -/
def findSub (n : Str) : Str → Option Nat
  | [] => if begins n [] then some 0 else none
  | s@(_ :: rest) =>
    if begins n s then some 0 else (findSub n rest).map (· + 1)

/-- Python `str.split()` with no argument: split on whitespace runs,
dropping empty pieces. -/
def splitWs (s : Str) : List Str :=
  let p := s.foldr
    (fun c (acc : Str × List Str) =>
      if isPySpace c then ([], if acc.1 = [] then acc.2 else acc.1 :: acc.2)
      else (c :: acc.1, acc.2))
    ([], [])
  if p.1 = [] then p.2 else p.1 :: p.2

/-- `' '.join(s.split())`: whitespace normalization. -/
def normWs (s : Str) : Str :=
  match splitWs s with
  | [] => []
  | w :: ws => ws.foldl (fun acc x => acc ++ [' '] ++ x) w

/-- `sep.join(parts)`. -/
def joinSep (sep : Str) : List Str → Str
  | [] => []
  | [x] => x
  | x :: y :: ys => x ++ sep ++ joinSep sep (y :: ys)

/-- Embedding of `re.split(r'[.!?]+', text)`: split on runs of sentence
terminators, keeping empty boundary pieces exactly as CPython does. -/
def splitTerm (s : Str) : List Str :=
  let isT := fun c => c == '.' || c == '!' || c == '?'
  let p := s.foldr
    (fun c (acc : Str × List Str × Bool) =>
      if isT c then
        if acc.2.2 then acc else ([], acc.1 :: acc.2.1, true)
      else (c :: acc.1, acc.2.1, false))
    ([], [], false)
  p.1 :: p.2.1

/-- `s.split('\n')` (keeps empty pieces). -/
def splitNl (s : Str) : List Str :=
  let p := s.foldr
    (fun c (acc : Str × List Str) =>
      if c == '\n' then ([], acc.1 :: acc.2) else (c :: acc.1, acc.2))
    ([], [])
  p.1 :: p.2

/-- Replace every maximal run of characters satisfying `bad` by `rep`
(the shape of `re.sub(r'[bad]+', rep, s)` for a character class). -/
def subRuns (bad : Char → Bool) (rep : Str) (s : Str) : Str :=
  (s.foldr
    (fun c (acc : Str × Bool) =>
      if bad c then
        if acc.2 then acc else (rep ++ acc.1, true)
      else (c :: acc.1, false))
    ([], false)).1

/-- `re.sub(r'\s+', ' ', s)`. -/
def collapseWs (s : Str) : Str := subRuns isPySpace [' '] s

/-- Stable insertion sort; `le a b` means `a` may be placed before `b`.
With `le a b := key b ≤ key a` this embeds Python's stable
`list.sort(key=key, reverse=True)`. -/
def ordIns (le : α → α → Bool) (a : α) : List α → List α
  | [] => [a]
  | b :: l => if le a b then a :: b :: l else b :: ordIns le a l

def insSort (le : α → α → Bool) : List α → List α
  | [] => []
  | a :: l => ordIns le a (insSort le l)

/-- Lexicographic comparison by code point (Python `<=` on `str`). -/
def lexLe : Str → Str → Bool
  | [], _ => true
  | _ :: _, [] => false
  | a :: s, b :: t =>
    if a.toNat < b.toNat then true
    else if b.toNat < a.toNat then false
    else lexLe s t

/-- Append `x` if it is not already present (insertion-ordered set). -/
def insertNew [BEq α] (x : α) (l : List α) : List α :=
  if l.contains x then l else l ++ [x]

/-! ## The pattern engine -/

/-- Matcher state: the previous character (for `\b`) and the remaining text. -/
structure MSt where
  prev : Option Char
  rest : Str
deriving Repr, DecidableEq

/-- A pattern is a function from a state to the list of possible
successor states, in backtracking preference order. -/
abbrev Pat := MSt → List MSt

def pEps : Pat := fun s => [s]

def pCls (f : Char → Bool) : Pat := fun s =>
  match s.rest with
  | [] => []
  | c :: r => if f c then [⟨some c, r⟩] else []

def pSeq (p q : Pat) : Pat := fun s => (p s).flatMap q

def pAlt (p q : Pat) : Pat := fun s => p s ++ q s

def pAlts (ps : List Pat) : Pat := ps.foldr pAlt (fun _ => [])

/-- Greedy `[f]*`: longest consumption preferred. -/
def pStar (f : Char → Bool) : Pat := fun s =>
  let run := s.rest.takeWhile f
  (List.range (run.length + 1)).map (fun i =>
    let k := run.length - i
    ⟨if k = 0 then s.prev else some (run.getD (k - 1) ' '), s.rest.drop k⟩)

/-- Greedy `[f]+`. -/
def pPlus (f : Char → Bool) : Pat := pSeq (pCls f) (pStar f)

/-- Lazy `[f]+?`: shortest consumption preferred. -/
def pLazyPlus (f : Char → Bool) : Pat := fun s =>
  let run := s.rest.takeWhile f
  (List.range run.length).map (fun i =>
    ⟨some (run.getD i ' '), s.rest.drop (i + 1)⟩)

/-- Greedy `[f]?`. -/
def pOpt (f : Char → Bool) : Pat := fun s =>
  match s.rest with
  | [] => [s]
  | c :: r => if f c then [⟨some c, r⟩, s] else [s]

/-- Greedy `(?:p)?` for a subpattern. -/
def pOptP (p : Pat) : Pat := fun s => p s ++ [s]

/-- `(?:p)*` (greedy), with fuel; every source use has a subpattern that
consumes at least one character, so fuel `rest.length` is exhaustive. -/
def pStarPAux (p : Pat) : Nat → Pat
  | 0 => pEps
  | n + 1 => pAlt (pSeq p (pStarPAux p n)) pEps

def pStarP (p : Pat) : Pat := fun s => pStarPAux p s.rest.length s

def pChar (c : Char) : Pat := pCls (· == c)

def pStr (w : Str) : Pat := w.foldr (fun c acc => pSeq (pChar c) acc) pEps

/-- Case-insensitive literal (for `re.IGNORECASE` patterns). -/
def pStrCI (w : Str) : Pat :=
  w.foldr (fun c acc => pSeq (pCls (fun d => pyLower d == pyLower c)) acc) pEps

/-- `\b` word boundary. -/
def pBound : Pat := fun s =>
  let lw := match s.prev with | some c => pyIsWord c | none => false
  let rw := match s.rest with | c :: _ => pyIsWord c | [] => false
  if lw != rw then [s] else []

/-- Length of the preferred match of `p` at this position, if any. -/
def matchLen (p : Pat) (prev : Option Char) (s : Str) : Option Nat :=
  match p ⟨prev, s⟩ with
  | [] => none
  | r :: _ => some (s.length - r.rest.length)

/-- One `re.findall` scan step: try the pattern at each position; on a
match, record it and resume after its end (after one character for an
empty match, as CPython's `findall` does). -/
def scanAux (p : Pat) : Nat → Option Char → Str → List Str
  | 0, _, _ => []
  | _ + 1, prev, [] => if (matchLen p prev []).isSome then [[]] else []
  | fuel + 1, prev, s@(c :: rest) =>
    match matchLen p prev s with
    | some (k + 1) =>
        s.take (k + 1) :: scanAux p fuel (some (s.getD k ' ')) (s.drop (k + 1))
    | some 0 => [] :: scanAux p fuel (some c) rest
    | none => scanAux p fuel (some c) rest

def findAll (p : Pat) (s : Str) : List Str := scanAux p (s.length + 1) none s

/-- `re.finditer` variant that also yields the match start offsets. -/
def scanPosAux (p : Pat) : Nat → Nat → Option Char → Str → List (Nat × Str)
  | 0, _, _, _ => []
  | _ + 1, i, prev, [] => if (matchLen p prev []).isSome then [(i, [])] else []
  | fuel + 1, i, prev, s@(c :: rest) =>
    match matchLen p prev s with
    | some (k + 1) =>
        (i, s.take (k + 1)) ::
          scanPosAux p fuel (i + (k + 1)) (some (s.getD k ' ')) (s.drop (k + 1))
    | some 0 => (i, []) :: scanPosAux p fuel (i + 1) (some c) rest
    | none => scanPosAux p fuel (i + 1) (some c) rest

def findAllPos (p : Pat) (s : Str) : List (Nat × Str) :=
  scanPosAux p (s.length + 1) 0 none s

/-! ## `modules/math_extractor.py` -/

/-- The character class `[A-Za-z0-9\s\^\=\+\-\*/\(\)\.]` of patterns 1 and 7. -/
def isCls1 (c : Char) : Bool :=
  c.isAlphanum || isPySpace c || ("^=+-*/().".data).contains c

/-- Pattern 1: basic equations, `[cls]+\s*=\s*[cls]+`. -/
def mathP1 : Pat :=
  pSeq (pPlus isCls1)
    (pSeq (pStar isPySpace)
      (pSeq (pChar '=') (pSeq (pStar isPySpace) (pPlus isCls1))))

/-- Pattern 2: `\$\$\s*(.+?)\s*\$\$`. -/
def mathP2 : Pat :=
  pSeq (pStr ("$$".data))
    (pSeq (pStar isPySpace)
      (pSeq (pLazyPlus (· != '\n'))
        (pSeq (pStar isPySpace) (pStr ("$$".data)))))

/-- `[×x*]` under `re.IGNORECASE` (so also `X`). -/
def isSciOp (c : Char) : Bool := c == '×' || c == 'x' || c == 'X' || c == '*'

/-- Pattern 3: scientific notation `\d+\.?\d*\s*[×x*]\s*10\^?[\-\+]?\d+`. -/
def mathP3 : Pat :=
  pSeq (pPlus Char.isDigit)
    (pSeq (pOpt (· == '.'))
      (pSeq (pStar Char.isDigit)
        (pSeq (pStar isPySpace)
          (pSeq (pCls isSciOp)
            (pSeq (pStar isPySpace)
              (pSeq (pStr ("10".data))
                (pSeq (pOpt (· == '^'))
                  (pSeq (pOpt (fun c => c == '-' || c == '+'))
                    (pPlus Char.isDigit)))))))))

/-- Pattern 4: fractions `\d+/\d+`. -/
def mathP4 : Pat :=
  pSeq (pPlus Char.isDigit) (pSeq (pChar '/') (pPlus Char.isDigit))

/-- Pattern 5: powers `[A-Za-z0-9]+\^[A-Za-z0-9\+\-]+`. -/
def mathP5 : Pat :=
  pSeq (pPlus Char.isAlphanum)
    (pSeq (pChar '^') (pPlus (fun c => c.isAlphanum || c == '+' || c == '-')))

/-- Pattern 6: Greek-letter equations
`[α-ωΑ-Ω]+\s*[=\+\-\*/]\s*[A-Za-z0-9\+\-\*/\^\(\)\.]+`. -/
def mathP6 : Pat :=
  pSeq (pPlus isGreekChar)
    (pSeq (pStar isPySpace)
      (pSeq (pCls (fun c => c == '=' || c == '+' || c == '-' || c == '*' || c == '/'))
        (pSeq (pStar isPySpace)
          (pPlus (fun c => c.isAlphanum || ("+-*/^().".data).contains c)))))

/-- Pattern 7: `[∑∫∏][cls1]+`. -/
def mathP7 : Pat :=
  pSeq (pCls (fun c => c == '∑' || c == '∫' || c == '∏')) (pPlus isCls1)

def mathFnNames : List Str :=
  ["sin".data, "cos".data, "tan".data, "log".data, "ln".data, "exp".data,
   "sqrt".data, "abs".data, "max".data, "min".data, "lim".data]

/-- Pattern 8: `(sin|cos|tan|log|ln|exp|sqrt|abs|max|min|lim)\s*\([cls1]+\)`. -/
def mathP8 : Pat :=
  pSeq (pAlts (mathFnNames.map pStrCI))
    (pSeq (pStar isPySpace)
      (pSeq (pChar '(') (pSeq (pPlus isCls1) (pChar ')'))))

/-- Pattern 9: derivatives `d[A-Za-z]/d[A-Za-z]` (case-insensitive `d`). -/
def mathP9 : Pat :=
  pSeq (pStrCI ("d".data))
    (pSeq (pCls Char.isAlpha)
      (pSeq (pChar '/') (pSeq (pStrCI ("d".data)) (pCls Char.isAlpha))))

/-- Pattern 10: `∂[A-Za-z]/∂[A-Za-z]`. -/
def mathP10 : Pat :=
  pSeq (pChar '∂')
    (pSeq (pCls Char.isAlpha)
      (pSeq (pChar '/') (pSeq (pChar '∂') (pCls Char.isAlpha))))

/-- The matrix class `[A-Za-z0-9\s\,\;\+\-\*/]`. -/
def isClsMat (c : Char) : Bool :=
  c.isAlphanum || isPySpace c || (",;+-*/".data).contains c

/-- Pattern 11: matrix rows `\[[clsMat]+\]`. -/
def mathP11 : Pat := pSeq (pChar '[') (pSeq (pPlus isClsMat) (pChar ']'))

/-- The inequality operand class `[A-Za-z0-9\s\^\+\-\*/\(\)\.]` (no `=`). -/
def isCls12 (c : Char) : Bool :=
  c.isAlphanum || isPySpace c || ("^+-*/().".data).contains c

/-- Pattern 12: inequalities `[cls12]+\s*[<>≤≥≠]\s*[cls12]+`. -/
def mathP12 : Pat :=
  pSeq (pPlus isCls12)
    (pSeq (pStar isPySpace)
      (pSeq (pCls (fun c => c == '<' || c == '>' || c == '≤' || c == '≥' || c == '≠'))
        (pSeq (pStar isPySpace) (pPlus isCls12))))

/-- Group 1 of a full pattern-2 match `$$…$$`: the leading `\s*` is
greedy and the captured `(.+?)` is lazy, so the group is the inner text
with surrounding whitespace stripped, except that for an all-whitespace
inner text the lazy group still consumes one (whitespace) character. -/
def dollarGroup (m : Str) : Str :=
  if pyStrip ((m.drop 2).take (m.length - 4)) = [] then [' ']
  else pyStrip ((m.drop 2).take (m.length - 4))

/-- All candidate strings delivered by `re.findall` over the twelve
patterns, in source order.  Patterns 2 and 8 contain one capture group,
so for them `findall` yields the group, not the whole match: for
pattern 2 the inner text (`dollarGroup`), for pattern 8 the function
name (the leading alphabetic run of the match). -/
def mathCandidates (t : Str) : List Str :=
  findAll mathP1 t
  ++ (findAll mathP2 t).map dollarGroup
  ++ findAll mathP3 t
  ++ findAll mathP4 t
  ++ findAll mathP5 t
  ++ findAll mathP6 t
  ++ findAll mathP7 t
  ++ (findAll mathP8 t).map (·.takeWhile Char.isAlpha)
  ++ findAll mathP9 t
  ++ findAll mathP10 t
  ++ findAll mathP11 t
  ++ findAll mathP12 t

/-- Embedding of `re.sub(r'^\$\$\s*|\s*\$\$$', '', s)`: remove one
leading `$$` with the whitespace after it, and one trailing `$$` with
the whitespace before it. -/
def stripLeadDollars (s : Str) : Str :=
  if begins ("$$".data) s then (s.drop 2).dropWhile isPySpace else s

def stripDollars (s : Str) : Str :=
  (stripLeadDollars ((stripLeadDollars s).reverse)).reverse

/-- `MathExpressionExtractor.clean_expression`. -/
def clean_expression (expr : Str) : Str :=
  let e := collapseWs (pyStrip expr)
  let e := stripDollars e
  ((e.map (fun c => if c == '×' then '*' else c)).map
    (fun c => if c == '÷' then '/' else c))

/-- `self.math_symbols`, in source order (the source set literal lists
`π` twice; duplicates are harmless for membership). -/
def mathSymbols : Str :=
  ['=', '+', '-', '*', '/', '^', '√', '∑', '∫', '∏', 'π', 'α', 'β', 'γ',
   'δ', 'ε', 'ζ', 'η', 'θ', 'ι', 'κ', 'λ', 'μ', 'ν', 'ξ', 'ο', 'π', 'ρ',
   'σ', 'τ', 'υ', 'φ', 'χ', 'ψ', 'ω', '∞', '∂', '≤', '≥', '≠', '≈', '∈',
   '∉', '⊂', '⊃', '∪', '∩']

def falsePositiveWords : List Str :=
  ["page".data, "figure".data, "table".data, "section".data, "chapter".data,
   "reference".data, "bibliography".data, "index".data, "appendix".data]

/-- `MathExpressionExtractor.is_valid_math_expression`. -/
def is_valid_math_expression (expr : Str) : Bool :=
  let cleaned := clean_expression expr
  if cleaned.length < 3 || 200 < cleaned.length then false
  else if !(mathSymbols.any (fun sym => cleaned.contains sym)) then false
  else if cleaned.countP pyIsAlnum < 2 then false
  else if falsePositiveWords.any (fun fp => hasSub fp (lowerStr cleaned)) then false
  else true

/-- `MathExpressionExtractor.extract_expressions`: validate and clean
every candidate, deduplicate (Python uses a `set`; the embedding keeps
first-insertion order), sort by cleaned length descending (stably), cap
at 50. -/
def extract_expressions (t : Str) : List Str :=
  let expressions := (mathCandidates t).foldl
    (fun acc m =>
      if m != [] && is_valid_math_expression m then
        insertNew (clean_expression m) acc
      else acc) []
  (insSort (fun a b => b.length ≤ a.length) expressions).take 50

structure FormulaCtx where
  expr : Str
  ctx : Str
  pos : Nat
deriving Repr, DecidableEq

/-- All `(start, group(0))` pairs delivered by `re.finditer` over the
twelve patterns, in source order (`finditer` always yields the whole
match). -/
def mathPosMatches (t : Str) : List (Nat × Str) :=
  findAllPos mathP1 t ++ findAllPos mathP2 t ++ findAllPos mathP3 t
  ++ findAllPos mathP4 t ++ findAllPos mathP5 t ++ findAllPos mathP6 t
  ++ findAllPos mathP7 t ++ findAllPos mathP8 t ++ findAllPos mathP9 t
  ++ findAllPos mathP10 t ++ findAllPos mathP11 t ++ findAllPos mathP12 t

/-- `MathExpressionExtractor.extract_formulas_with_context`
(`context_chars` defaults to 100 in the source). -/
def extract_formulas_with_context (t : Str) (context_chars : Nat) : List FormulaCtx :=
  let items := (mathPosMatches t).foldl
    (fun acc (pm : Nat × Str) =>
      if is_valid_math_expression pm.2 then
        let st := pm.1 - context_chars
        let en := min t.length (pm.1 + pm.2.length + context_chars)
        acc ++ [⟨clean_expression pm.2, pyStrip ((t.drop st).take (en - st)), pm.1⟩]
      else acc) []
  let uniq := items.foldl
    (fun (acc : List FormulaCtx) it =>
      if acc.any (fun x => x.expr == it.expr) then acc else acc ++ [it]) []
  (insSort (fun a b => a.pos ≤ b.pos) uniq).take 30

/-! ## `modules/ner_processor.py` -/

/-- A spaCy entity span `(ent.start_char, ent.end_char, ent.text, ent.label_)`. -/
structure SpacyEnt where
  startChar : Nat
  endChar : Nat
  txt : Str
  label : Str
deriving Repr, DecidableEq

/-- `NERProcessor.clean_entity`: whitespace-collapse the stripped text,
then delete (replace by the empty string) every run of characters
outside `[\w\s\.\-\(\)]`. -/
def clean_entity (entity_text : Str) : Str :=
  let cleaned := collapseWs (pyStrip entity_text)
  subRuns (fun c => !(pyIsWord c || isPySpace c || (".-()".data).contains c)) [] cleaned

def entityFalsePositives : List Str :=
  ["the".data, "and".data, "or".data, "but".data, "in".data, "on".data,
   "at".data, "to".data, "for".data, "of".data, "with".data, "by".data,
   "from".data, "up".data, "about".data, "into".data, "through".data,
   "during".data, "before".data, "after".data, "above".data, "below".data,
   "between".data, "among".data, "page".data, "figure".data, "table".data,
   "section".data, "chapter".data, "appendix".data, "reference".data,
   "et".data, "al".data]

def pronounWords : List Str :=
  ["he".data, "she".data, "it".data, "they".data, "we".data, "you".data, "i".data]

def vagueTimeWords : List Str :=
  ["now".data, "then".data, "when".data, "time".data, "date".data]

/-- `NERProcessor.is_valid_entity`. -/
def is_valid_entity (entity_text : Str) (entity_label : Str) : Bool :=
  let cleaned := clean_entity entity_text
  if cleaned.length < 2 || 100 < cleaned.length then false
  else if cleaned.length == 1 || (cleaned != [] && cleaned.all Char.isDigit) then false
  else if entityFalsePositives.contains (lowerStr cleaned) then false
  else if entity_label == ("PERSON".data) then
    if !(cleaned.any Char.isAlpha) then false
    else if (splitWs cleaned).length == 1 && pronounWords.contains (lowerStr cleaned) then false
    else true
  else if entity_label == ("ORG".data) then
    if (splitWs cleaned).length == 1 && cleaned.length < 3 then false else true
  else if entity_label == ("DATE".data) || entity_label == ("TIME".data) then
    if vagueTimeWords.contains (lowerStr cleaned) then false else true
  else true

/-- One replacement step of the highlighting loop:
`h[:start] + f"**{text}**" + h[end:]`. -/
def highlightReplace (t : Str) (e : SpacyEnt) : Str :=
  t.take e.startChar ++ "**".data ++ e.txt ++ "**".data ++ t.drop e.endChar

/-- The mutation loop of `highlight_entities_in_text`: sort the spans by
start position in reverse order (stable) and apply the replacements in
that order. -/
def highlightApply (t : Str) (es : List SpacyEnt) : Str :=
  (insSort (fun a b => b.startChar ≤ a.startChar) es).foldl highlightReplace t

/-- The success path of `highlight_entities_in_text` given the tagger's
entity list: filter by validity, then apply the replacement loop. -/
def highlightCore (t : Str) (ents : List SpacyEnt) : Str :=
  highlightApply t (ents.filter (fun e => is_valid_entity e.txt e.label))

/-- `NERProcessor.highlight_entities_in_text`.  The spaCy pipeline handle
is `none` when model loading failed in `__init__`; a call that raises is
modelled by the tagger returning `.error`. -/
def highlight_entities_in_text
    (nlp : Option (Str → Except Str (List SpacyEnt))) (t : Str) : Str :=
  match nlp with
  | none => t
  | some f =>
    match f t with
    | .error _ => t
    | .ok ents => highlightCore t ents

def labelMapping : List (Str × Str) :=
  [("PERSON".data, "People".data), ("ORG".data, "Organizations".data),
   ("GPE".data, "Locations".data), ("DATE".data, "Dates".data),
   ("TIME".data, "Times".data), ("MONEY".data, "Money".data),
   ("PERCENT".data, "Percentages".data), ("QUANTITY".data, "Quantities".data),
   ("ORDINAL".data, "Ordinals".data), ("CARDINAL".data, "Numbers".data),
   ("EVENT".data, "Events".data), ("FAC".data, "Facilities".data),
   ("LAW".data, "Laws".data), ("LANGUAGE".data, "Languages".data),
   ("NORP".data, "Nationalities".data), ("PRODUCT".data, "Products".data),
   ("WORK_OF_ART".data, "Works of Art".data)]

def lookupD (m : List (Str × Str)) (k : Str) (d : Str) : Str :=
  match m.find? (fun p => p.1 == k) with
  | some p => p.2
  | none => d

/-- Append `v` to the entry of `k` in an insertion-ordered association
list (Python `dict` semantics). -/
def addToLabel (m : List (Str × List Str)) (k : Str) (v : Str) : List (Str × List Str) :=
  if m.any (fun p => p.1 == k) then
    m.map (fun p => if p.1 == k then (p.1, p.2 ++ [v]) else p)
  else m ++ [(k, [v])]

/-- Keep the first occurrence of each element (embedding `list(set(x))`
up to order; the subsequent sort makes the order canonical). -/
def dedupKeepFirst (l : List Str) : List Str :=
  l.foldl (fun acc x => insertNew x acc) []

/-- The success path of `extract_entities` given the tagger's entity
list: validate, deduplicate by `(cleaned.lower(), label)`, group by
label in first-appearance order, sort each label's list and cap it at
20, and rename labels via `label_mapping`. -/
def extract_entities_core (ents : List SpacyEnt) : List (Str × List Str) :=
  let step := fun (acc : List (Str × Str) × List (Str × List Str)) (e : SpacyEnt) =>
    if is_valid_entity e.txt e.label then
      let cleaned := clean_entity e.txt
      let key := (lowerStr cleaned, e.label)
      if acc.1.contains key then acc
      else (acc.1 ++ [key], addToLabel acc.2 e.label cleaned)
    else acc
  let ebt := (ents.foldl step ([], [])).2
  let ebt := ebt.map (fun p => (p.1, (insSort lexLe (dedupKeepFirst p.2)).take 20))
  ebt.map (fun p => (lookupD labelMapping p.1 p.1, p.2))

/-- `NERProcessor.extract_entities`.  `tag = none` models an absent
spaCy model; `some (.error e)` a pipeline call that raised `e`. -/
def extract_entities (tag : Option (Except Str (List SpacyEnt))) : List (Str × List Str) :=
  match tag with
  | none => [("error".data, [("spaCy model not available".data)])]
  | some (Except.error e) =>
      [("error".data, [("Entity extraction failed: ".data ++ e)])]
  | some (Except.ok ents) => extract_entities_core ents

/-! ## `modules/summarizer.py` -/

/-- Exactly `n` repetitions of a character class (`\d{n}`). -/
def pRep (f : Char → Bool) : Nat → Pat
  | 0 => pEps
  | n + 1 => pSeq (pCls f) (pRep f n)

/-- `\d{1,2}` (greedy). -/
def pD12 : Pat := pSeq (pCls Char.isDigit) (pOpt Char.isDigit)

/-- `\d{2,4}` (greedy). -/
def pD24 : Pat :=
  pSeq (pCls Char.isDigit)
    (pSeq (pCls Char.isDigit)
      (pOptP (pSeq (pCls Char.isDigit) (pOptP (pCls Char.isDigit)))))

/-- `(?:\.\d+)?` (greedy). -/
def pDecPart : Pat := pOptP (pSeq (pChar '.') (pPlus Char.isDigit))

def magnitudeWords : List Str :=
  ["million".data, "billion".data, "thousand".data, "M".data, "B".data, "K".data]

def unitWords : List Str :=
  ["kg".data, "g".data, "lb".data, "ton".data, "meter".data, "m".data,
   "km".data, "ft".data, "inch".data, "cm".data, "mm".data]

def monthNames : List Str :=
  ["January".data, "February".data, "March".data, "April".data, "May".data,
   "June".data, "July".data, "August".data, "September".data, "October".data,
   "November".data, "December".data]

/-- `\b\d+(?:\.\d+)?%\b`. -/
def factN1 : Pat :=
  pSeq pBound (pSeq (pPlus Char.isDigit) (pSeq pDecPart (pSeq (pChar '%') pBound)))

/-- `\b\d+(?:,\d{3})*(?:\.\d+)?\s*(?:million|billion|thousand|M|B|K)\b`
(case-insensitive). -/
def factN2 : Pat :=
  pSeq pBound
    (pSeq (pPlus Char.isDigit)
      (pSeq (pStarP (pSeq (pChar ',') (pRep Char.isDigit 3)))
        (pSeq pDecPart
          (pSeq (pStar isPySpace)
            (pSeq (pAlts (magnitudeWords.map pStrCI)) pBound)))))

/-- `\$\d+(?:,\d{3})*(?:\.\d+)?(?:\s*(?:million|billion|thousand|M|B|K))?\b`
(case-insensitive). -/
def factN3 : Pat :=
  pSeq (pChar '$')
    (pSeq (pPlus Char.isDigit)
      (pSeq (pStarP (pSeq (pChar ',') (pRep Char.isDigit 3)))
        (pSeq pDecPart
          (pSeq (pOptP (pSeq (pStar isPySpace) (pAlts (magnitudeWords.map pStrCI))))
            pBound))))

/-- `\b\d{4}\b`. -/
def factN4 : Pat := pSeq pBound (pSeq (pRep Char.isDigit 4) pBound)

/-- `\b\d+(?:\.\d+)?\s*(?:kg|g|lb|ton|meter|m|km|ft|inch|cm|mm)\b`
(case-insensitive). -/
def factN5 : Pat :=
  pSeq pBound
    (pSeq (pPlus Char.isDigit)
      (pSeq pDecPart
        (pSeq (pStar isPySpace)
          (pSeq (pAlts (unitWords.map pStrCI)) pBound))))

/-- `\b(?:January|…|December)\s+\d{1,2},?\s+\d{4}\b` (case-insensitive). -/
def factD1 : Pat :=
  pSeq pBound
    (pSeq (pAlts (monthNames.map pStrCI))
      (pSeq (pPlus isPySpace)
        (pSeq pD12
          (pSeq (pOpt (· == ','))
            (pSeq (pPlus isPySpace)
              (pSeq (pRep Char.isDigit 4) pBound))))))

/-- Numeric dates: `\b\d{1,2} C \d{1,2} C \d{2,4}\b` where `C` is the
source's two-character class containing the dash and the slash. -/
def factD2 : Pat :=
  pSeq pBound
    (pSeq pD12
      (pSeq (pCls (fun c => c == '-' || c == '/'))
        (pSeq pD12
          (pSeq (pCls (fun c => c == '-' || c == '/'))
            (pSeq pD24 pBound)))))

/-- `\b(?:from|between|during)\s+\d{4}\s*(?:to|and|-)\s*\d{4}\b`
(case-insensitive). -/
def factD3 : Pat :=
  pSeq pBound
    (pSeq (pAlts (["from".data, "between".data, "during".data].map pStrCI))
      (pSeq (pPlus isPySpace)
        (pSeq (pRep Char.isDigit 4)
          (pSeq (pStar isPySpace)
            (pSeq (pAlts (["to".data, "and".data, "-".data].map pStrCI))
              (pSeq (pStar isPySpace)
                (pSeq (pRep Char.isDigit 4) pBound)))))))

def numberPats : List Pat := [factN1, factN2, factN3, factN4, factN5]

def datePats : List Pat := [factD1, factD2, factD3]

/-- Context extraction for one match in `extract_facts_and_figures`:
the position is `text.find(match)` (first occurrence), the window is
`[max(0, pos - c), min(len(text), pos + len(match) + c))` (`Nat`
subtraction is the `max(0, ·)` clamp), the candidate is stripped and
whitespace-normalized, and it is kept only if longer than `τ` and not
already present. -/
def addCtx (t : Str) (c τ : Nat) (facts : List Str) (m : Str) : List Str :=
  match findSub m t with
  | none => facts
  | some pos =>
    if τ < (normWs (pyStrip ((t.drop (pos - c)).take
            (min t.length (pos + m.length + c) - (pos - c))))).length
        && !(facts.contains (normWs (pyStrip ((t.drop (pos - c)).take
            (min t.length (pos + m.length + c) - (pos - c)))))) then
      facts ++ [normWs (pyStrip ((t.drop (pos - c)).take
            (min t.length (pos + m.length + c) - (pos - c))))]
    else facts

/-- `TextSummarizer.extract_facts_and_figures`. -/
def extract_facts_and_figures (t : Str) : List Str :=
  let facts := numberPats.foldl (fun fs p => (findAll p t).foldl (addCtx t 50 20) fs) []
  let facts := datePats.foldl (fun fs p => (findAll p t).foldl (addCtx t 40 15) fs) facts
  facts.take 10

/-- `\d+(?:\.\d+)?[%]?` (the numeric-boost search of
`score_sentence_importance`). -/
def scoreNumPat : Pat :=
  pSeq (pPlus Char.isDigit) (pSeq pDecPart (pOpt (· == '%')))

/-- `\b\d{4}\b|\b(?:January|…|December)\b` (case-sensitive: this search
has no flags in the source). -/
def scoreDatePat : Pat :=
  pAlt (pSeq pBound (pSeq (pRep Char.isDigit 4) pBound))
    (pSeq pBound (pSeq (pAlts (monthNames.map pStr)) pBound))

/-- `re.search(p, t)` as a Boolean. -/
def reSearch (p : Pat) (t : Str) : Bool := !(findAll p t).isEmpty

def importanceIndicators : List (Str × Nat) :=
  [("conclusion".data, 15), ("result".data, 12), ("finding".data, 12),
   ("significant".data, 10), ("important".data, 10), ("key".data, 8),
   ("main".data, 8), ("primary".data, 8), ("discovered".data, 10),
   ("showed".data, 8), ("demonstrated".data, 8), ("analysis".data, 6),
   ("study".data, 6), ("research".data, 6), ("data".data, 5)]

/-- `TextSummarizer.score_sentence_importance` (all scores are integral,
so the Python `float` is embedded as `Nat`). -/
def score_sentence_importance (s : Str) : Nat :=
  let base := (splitWs s).length
  let sl := lowerStr s
  let withInd := importanceIndicators.foldl
    (fun acc p => if hasSub p.1 sl then acc + p.2 else acc) base
  let withNum := if reSearch scoreNumPat s then withInd + 8 else withInd
  if reSearch scoreDatePat s then withNum + 5 else withNum

/-- `re.sub(r'\$\$.*?\$\$', '[MATH_EXPRESSION]', s)`.  In the cleaning
pipeline this runs after whitespace collapsing, so the input contains no
newline and the lazy `.*?` reach is simply the earliest closing `$$`. -/
def mathSubAux : Nat → Str → Str
  | 0, s => s
  | fuel + 1, s =>
    match s with
    | [] => []
    | c :: rest =>
      if begins ("$$".data) s then
        match findSub ("$$".data) (s.drop 2) with
        | some j => ("[MATH_EXPRESSION]".data) ++ mathSubAux fuel (s.drop (2 + j + 2))
        | none => c :: mathSubAux fuel rest
      else c :: mathSubAux fuel rest

def mathSub (s : Str) : Str := mathSubAux s.length s

/-- The word-repetition collapse loop of `clean_text_for_summarization`
(`prev_word` starts empty, `repeat_count` at 0; a word equal to the
previous one, case-insensitively, is kept only while the updated
`repeat_count` is below 3). -/
def collapseRepeatsAux : List Str → Str → Nat → List Str
  | [], _, _ => []
  | w :: rest, prev, cnt =>
    if lowerStr w == lowerStr prev then
      if cnt + 1 < 3 then w :: collapseRepeatsAux rest w (cnt + 1)
      else collapseRepeatsAux rest w (cnt + 1)
    else w :: collapseRepeatsAux rest w 0

def collapseRepeats (ws : List Str) : List Str := collapseRepeatsAux ws [] 0

/-- `TextSummarizer.clean_text_for_summarization`. -/
def clean_text_for_summarization (t : Str) : Str :=
  let t1 := collapseWs t
  let t2 := mathSub t1
  let kept := ((splitNl t2).map pyStrip).filter (fun l => 10 < l.length)
  let t3 := joinSep [' '] kept
  let t4 := subRuns
    (fun c => !(pyIsWord c || isPySpace c || (".,!?;:-()".data).contains c
                || c == '"' || c == Char.ofNat 39)) [' '] t3
  joinSep [' '] (collapseRepeats (splitWs t4))

/-- The accumulation loop of `split_text_into_chunks`: skip empty
stripped sentences; start a new chunk when the current one is non-empty
and adding the sentence would exceed the bound (the `". "` separator is
not counted by the check). -/
def splitChunksAux (bound : Nat) : List Str → Str → List Str
  | [], cur => if pyStrip cur != [] then [pyStrip cur] else []
  | s :: rest, cur =>
    if pyStrip s = [] then splitChunksAux bound rest cur
    else if bound < cur.length + (pyStrip s).length && cur != [] then
      pyStrip cur :: splitChunksAux bound rest (pyStrip s)
    else if cur = [] then splitChunksAux bound rest (pyStrip s)
    else splitChunksAux bound rest (cur ++ (". ".data) ++ pyStrip s)

/-- `TextSummarizer.split_text_into_chunks` (the source default for
`max_chunk_length` is 900; `generate_summary` passes 800). -/
def split_text_into_chunks (t : Str) (max_chunk_length : Nat) : List Str :=
  splitChunksAux max_chunk_length (splitTerm t) []

/-- `TextSummarizer.extract_key_points`. -/
def extract_key_points (t : Str) (num_points : Nat) : List Str :=
  let qual := ((splitTerm t).map pyStrip).filter
    (fun s => 30 < s.length && 5 < (splitWs s).length)
  let scored := qual.map (fun s => (score_sentence_importance s, s))
  ((insSort (fun (a b : Nat × Str) => b.1 ≤ a.1) scored).take num_points).map (·.2)

/-- The `result_parts` list built by `create_comprehensive_summary`:
`"SUMMARY: …"` if the joined model outputs are non-empty after a strip,
`"KEY POINTS: …"` over the top 5 key points if any, and
`"IMPORTANT FACTS: …"` over the top 5 facts if any. -/
def ccsParts (summaries key_points facts : List Str) : List Str :=
  let main_content := pyStrip (joinSep [' '] summaries)
  let parts0 : List Str :=
    if main_content != [] then [("SUMMARY: ".data) ++ main_content] else []
  let parts1 :=
    if key_points != [] then
      parts0 ++ [("KEY POINTS: ".data) ++ joinSep ("; ".data) (key_points.take 5)]
    else parts0
  if facts != [] then
    parts1 ++ [("IMPORTANT FACTS: ".data) ++ joinSep ("; ".data) (facts.take 5)]
  else parts1

/-- The truncation cascade of `create_comprehensive_summary`: if the
`" | "`-joined parts exceed `max_length`, keep the first part, re-add
the second only if both fit strictly under `max_length` (the source
check does not count the 3-character separator), and hard-truncate to
`max_length - 3` plus `"..."` if still over.  `Nat` subtraction in
`max_length - 3` matches the Python slice for `max_length ≥ 3`; every
use in this development is under a `10 ≤ max_length` hypothesis. -/
def ccsTrunc (parts : List Str) (max_length : Nat) : Str :=
  let combined := joinSep (" | ".data) parts
  if max_length < combined.length then
    if 1 < parts.length then
      let sh0 := parts.getD 0 []
      let sh :=
        if 1 < parts.length && sh0.length + (parts.getD 1 []).length < max_length
        then sh0 ++ (" | ".data) ++ parts.getD 1 []
        else sh0
      if max_length < sh.length then sh.take (max_length - 3) ++ ("...".data)
      else sh
    else combined.take (max_length - 3) ++ ("...".data)
  else combined

/-- `TextSummarizer.create_comprehensive_summary`. -/
def create_comprehensive_summary
    (summaries key_points facts : List Str) (max_length : Nat) : Str :=
  ccsTrunc (ccsParts summaries key_points facts) max_length

/-- The greedy sentence selection of the fallback summary: walk the
scored sentences in order and stop at the first whose addition would
push the cumulative length past `max_length * 0.7`.  The float
comparison is embedded as the exact comparison
`10 * (cur + len) > 7 * max_length`; every concrete use in this
development is far from the floating-point rounding boundary.  Returns
the selected sentences and the final cumulative length. -/
def takeGreedy (maxL : Nat) : List (Nat × Str) → Nat → (List Str × Nat)
  | [], cur => ([], cur)
  | (_, s) :: rest, cur =>
    if 7 * maxL < 10 * (cur + s.length) then ([], cur)
    else
      let r := takeGreedy maxL rest (cur + s.length)
      (s :: r.1, r.2)

/-- `TextSummarizer._comprehensive_fallback_summary`.  `available_space`
can be negative in Python, so it is an `Int` here. -/
def comprehensive_fallback_summary (t : Str) (max_length : Nat) : Str :=
  let clean_sentences := ((splitTerm t).map pyStrip).filter
    (fun s => 20 < s.length && 4 < (splitWs s).length)
  if clean_sentences = [] then
    "Unable to generate summary from the provided text.".data
  else
    let scored := clean_sentences.map (fun s => (score_sentence_importance s, s))
    let sorted := insSort (fun (a b : Nat × Str) => b.1 ≤ a.1) scored
    let sel := takeGreedy max_length sorted 0
    let summary_sentences := sel.1
    let current_length := sel.2
    let facts := extract_facts_and_figures t
    let facts_text : Str :=
      if facts != [] then
        let available : Int := (max_length : Int) - (current_length : Int) - 20
        let fta := (facts.foldl
          (fun (acc : List Str × Int) f =>
            if acc.2 + (f.length : Int) < available then (acc.1 ++ [f], acc.2 + f.length)
            else acc) ([], 0)).1
        if fta != [] then (" | FACTS: ".data) ++ joinSep ("; ".data) (fta.take 3)
        else []
      else []
    if summary_sentences != [] then
      joinSep (". ".data) summary_sentences ++ ['.'] ++ facts_text
    else
      (clean_sentences.headD []).take (max_length - 3) ++ ("...".data)

/-- The external summarization model: a (fallible) function from a text
and the `max_length`/`min_length` arguments (which the source can make
negative, hence `Int`) to a summary string. -/
abbrev Model := Str → Int → Int → Except Unit Str

/-- `TextSummarizer.generate_summary`.  `model = none` embeds
`self.model_loaded == False`; a raising pipeline call is a model
returning `.error`.  Nothing else inside the source `try` blocks can
raise. -/
def generate_summary (model : Option Model) (text : Str)
    (max_length min_length : Nat) : Str :=
  match model with
  | none => comprehensive_fallback_summary text max_length
  | some m =>
    let cleaned_text := clean_text_for_summarization text
    if (splitWs cleaned_text).length < 50 then
      "Text too short for meaningful summarization.".data
    else
      let key_points := extract_key_points text 8
      if 900 < cleaned_text.length then
        let chunks := split_text_into_chunks cleaned_text 800
        let res := (chunks.take 6).foldl
          (fun (acc : List Str × List Str) chunk =>
            if 20 ≤ (splitWs chunk).length then
              match m chunk (min 120 ((max_length : Int) / (max (chunks.length : Int) 1)))
                  (min 40 ((min_length : Int) / (max (chunks.length : Int) 1))) with
              | Except.ok s => (acc.1 ++ [s], acc.2 ++ extract_facts_and_figures chunk)
              | Except.error _ => acc
            else acc) ([], [])
        if res.1 != [] then
          create_comprehensive_summary res.1 key_points res.2 max_length
        else comprehensive_fallback_summary text max_length
      else
        match m cleaned_text ((max_length : Int) - 100)
            (max ((min_length : Int) - 50) 30) with
        | Except.ok s =>
            create_comprehensive_summary [s] key_points
              (extract_facts_and_figures text) max_length
        | Except.error _ => comprehensive_fallback_summary text max_length

/-! ## Generic helper lemmas -/

theorem length_dotsData : ("...".data).length = 3 := rfl

theorem insertNew_nodup [BEq α] [LawfulBEq α] (x : α) (l : List α) (h : l.Nodup) :
    (insertNew x l).Nodup := by
  unfold insertNew
  split
  · exact h
  · next hc =>
    rw [List.nodup_append]
    refine ⟨h, List.nodup_singleton x, ?_⟩
    intro a ha hb
    rw [List.mem_singleton] at hb
    subst hb
    exact hc (List.elem_iff.mpr ha)

theorem mem_insertNew [BEq α] [LawfulBEq α] (x y : α) (l : List α)
    (h : y ∈ insertNew x l) : y ∈ l ∨ y = x := by
  unfold insertNew at h
  split at h
  · exact Or.inl h
  · rcases List.mem_append.mp h with h1 | h1
    · exact Or.inl h1
    · exact Or.inr (List.mem_singleton.mp h1)

theorem ordIns_perm (le : α → α → Bool) (x : α) (l : List α) :
    List.Perm (ordIns le x l) (x :: l) := by
  induction l with
  | nil => simp [ordIns]
  | cons b t ih =>
    unfold ordIns
    split
    · exact List.Perm.refl _
    · exact List.Perm.trans (List.Perm.cons b ih) (List.Perm.swap x b t)

theorem insSort_perm (le : α → α → Bool) (l : List α) :
    List.Perm (insSort le l) l := by
  induction l with
  | nil => exact List.Perm.refl _
  | cons a t ih =>
    exact List.Perm.trans (ordIns_perm le a (insSort le t)) (List.Perm.cons a ih)

theorem foldl_preserves (inv : β → Prop) (step : β → α → β)
    (h : ∀ b a, inv b → inv (step b a)) :
    ∀ (l : List α) (b : β), inv b → inv (l.foldl step b) := by
  intro l
  induction l with
  | nil => intro b hb; exact hb
  | cons a t ih => intro b hb; exact ih (step b a) (h b a hb)

/-- Every string produced by the `findall` scan consists of characters
of the scanned text. -/
theorem mem_of_mem_scanAux (p : Pat) :
    ∀ (fuel : Nat) (prev : Option Char) (s m : Str),
      m ∈ scanAux p fuel prev s → ∀ c ∈ m, c ∈ s := by
  intro fuel
  induction fuel with
  | zero => intro prev s m hm; simp [scanAux] at hm
  | succ n ih =>
    intro prev s m hm c hc
    match s with
    | [] =>
      unfold scanAux at hm
      split at hm
      · rw [List.mem_singleton] at hm; subst hm; simp at hc
      · simp at hm
    | d :: rest =>
      unfold scanAux at hm
      split at hm
      · next k heq =>
        rcases List.mem_cons.mp hm with h1 | h1
        · subst h1; exact List.mem_of_mem_take hc
        · exact List.mem_of_mem_drop (ih _ _ _ h1 c hc)
      · next heq =>
        rcases List.mem_cons.mp hm with h1 | h1
        · subst h1; simp at hc
        · exact List.mem_cons_of_mem d (ih _ _ _ h1 c hc)
      · exact List.mem_cons_of_mem d (ih _ _ _ hm c hc)

theorem mem_of_mem_findAll (p : Pat) (s m : Str) (hm : m ∈ findAll p s) :
    ∀ c ∈ m, c ∈ s :=
  mem_of_mem_scanAux p (s.length + 1) none s m hm

theorem mem_of_mem_subRuns (bad : Char → Bool) (rep s : Str) (c : Char)
    (hc : c ∈ subRuns bad rep s) : c ∈ rep ∨ c ∈ s := by
  unfold subRuns at hc
  induction s with
  | nil => simp at hc
  | cons d t ih =>
    rw [List.foldr_cons] at hc
    split at hc
    · split at hc
      · rcases ih hc with h | h
        · exact Or.inl h
        · exact Or.inr (List.mem_cons_of_mem d h)
      · rcases List.mem_append.mp hc with h | h
        · exact Or.inl h
        · rcases ih h with h1 | h1
          · exact Or.inl h1
          · exact Or.inr (List.mem_cons_of_mem d h1)
    · rcases List.mem_cons.mp hc with h | h
      · exact Or.inr (h ▸ List.mem_cons_self d t)
      · rcases ih h with h1 | h1
        · exact Or.inl h1
        · exact Or.inr (List.mem_cons_of_mem d h1)

theorem mem_of_mem_pyStrip (s : Str) (c : Char) (hc : c ∈ pyStrip s) : c ∈ s := by
  unfold pyStrip at hc
  rw [List.mem_reverse] at hc
  have h1 := (List.dropWhile_sublist (l := (s.dropWhile isPySpace).reverse) (p := isPySpace)).mem hc
  rw [List.mem_reverse] at h1
  exact (List.dropWhile_sublist (l := s) (p := isPySpace)).mem h1

theorem mem_of_mem_stripLeadDollars (s : Str) (c : Char)
    (hc : c ∈ stripLeadDollars s) : c ∈ s := by
  unfold stripLeadDollars at hc
  split at hc
  · exact List.mem_of_mem_drop ((List.dropWhile_sublist (l := s.drop 2) (p := isPySpace)).mem hc)
  · exact hc

theorem mem_of_mem_stripDollars (s : Str) (c : Char) (hc : c ∈ stripDollars s) : c ∈ s := by
  unfold stripDollars at hc
  rw [List.mem_reverse] at hc
  have h1 := mem_of_mem_stripLeadDollars _ _ hc
  rw [List.mem_reverse] at h1
  exact mem_of_mem_stripLeadDollars _ _ h1

/-- Characters of a cleaned expression: each is a space, a character of
the original candidate, or the image `*` of a `×` (resp. `/` of a `÷`)
occurring in the candidate. -/
theorem mem_clean_expression (e : Str) (c : Char) (hc : c ∈ clean_expression e) :
    c = ' ' ∨ c ∈ e ∨ (c = '*' ∧ '×' ∈ e) ∨ (c = '/' ∧ '÷' ∈ e) := by
  unfold clean_expression at hc
  rw [List.mem_map] at hc
  obtain ⟨c1, hc1, hc1e⟩ := hc
  rw [List.mem_map] at hc1
  obtain ⟨d, hd, hde⟩ := hc1
  have hd2 := mem_of_mem_stripDollars _ _ hd
  have hd3 := mem_of_mem_subRuns isPySpace [' '] (pyStrip e) d hd2
  rcases hd3 with h | h
  · rw [List.mem_singleton] at h
    subst h
    subst hde
    subst hc1e
    left
    rfl
  · have hde2 : d ∈ e := mem_of_mem_pyStrip _ _ h
    by_cases hx : d = '×'
    · subst hx
      subst hde
      subst hc1e
      right; right; left
      exact ⟨rfl, hde2⟩
    · by_cases hy : d = '÷'
      · subst hy
        subst hde
        subst hc1e
        right; right; right
        refine ⟨?_, hde2⟩
        rfl
      · have h1 : c1 = d := by
          subst hde
          simp only [beq_iff_eq]
          rw [if_neg hx]
        have h2 : c = c1 := by
          subst hc1e
          rw [h1]
          simp only [beq_iff_eq]
          rw [if_neg hy]
        right; left
        rw [h2, h1]
        exact hde2

/-! ## Claim C1 -/

/-- C1 (amended): the combination/truncation cascade
`create_comprehensive_summary` always returns a string of length at most
`max_length` when `max_length ≥ 10`, whatever the model outputs, key
points and facts are.  (The original claim extended the bound to every
return of `generate_summary`; the fixed literal messages and the
fallback path violate it, see the counterexample.) -/
theorem create_comprehensive_summary_length_le
    (summaries key_points facts : List Str) (max_length : Nat)
    (h : 10 ≤ max_length) :
    (create_comprehensive_summary summaries key_points facts max_length).length
      ≤ max_length := by
  have core : ∀ (parts : List Str),
      (ccsTrunc parts max_length).length ≤ max_length := by
    intro parts
    simp only [ccsTrunc]
    repeat' split
    all_goals
      first
      | omega
      | (rw [List.length_append, List.length_take, length_dotsData]; omega)
  exact core (ccsParts summaries key_points facts)

theorem create_comprehensive_summary_length_le_witness :
    10 ≤ 10 ∧
      (create_comprehensive_summary
        [("hello world this is a long model summary".data)] [] [] 10).length ≤ 10 :=
  ⟨by decide, create_comprehensive_summary_length_le _ _ _ _ (by decide)⟩

/-- C1 counterexample: with no model available, the empty input and
`max_length = 10` make `generate_summary` return the 50-character
literal fallback message, exceeding `max_length`. -/
theorem generate_summary_budget_counterexample :
    generate_summary none [] 10 100
        = ("Unable to generate summary from the provided text.".data)
      ∧ ¬ ((generate_summary none [] 10 100).length ≤ 10) := by
  exact ⟨by decide, by decide⟩

/-! ## Claim C2 -/

/-- C2 (amended): when a summarization model is loaded, any input whose
cleaned form has fewer than 50 words makes `generate_summary` return
the literal too-short message — but this short-circuit sits on the model
path only; with no model available `generate_summary` goes straight to
the fallback summary (see the counterexample). -/
theorem generate_summary_short_circuit (m : Model) (text : Str)
    (max_length min_length : Nat)
    (h : (splitWs (clean_text_for_summarization text)).length < 50) :
    generate_summary (some m) text max_length min_length
      = ("Text too short for meaningful summarization.".data) := by
  simp only [generate_summary]
  rw [if_pos h]

theorem generate_summary_short_circuit_witness :
    ((splitWs (clean_text_for_summarization ("hello.".data))).length < 50)
    ∧ generate_summary (some (fun _ _ _ => Except.ok [])) ("hello.".data) 300 150
        = ("Text too short for meaningful summarization.".data) :=
  ⟨by decide, generate_summary_short_circuit _ _ _ _ (by decide)⟩

/-- A 30-word one-sentence input (no digits, no sentence terminators
inside), used to exercise the no-model path of `generate_summary`. -/
def thirtyWordText : Str :=
  ("The quick brown fox jumps over the lazy dog while many other animals watch quietly from the forest edge and wonder what will happen next during the long warm afternoon").data

/-- C2 counterexample: a 30-word input (cleaned form under 50 words)
with `max_length = 300`, `min_length = 150` and no available model does
not return the literal too-short message: the no-model path goes to the
fallback, which returns the sentence followed by a period. -/
theorem generate_summary_short_counterexample :
    (splitWs (clean_text_for_summarization thirtyWordText)).length < 50
    ∧ generate_summary none thirtyWordText 300 150
        ≠ ("Text too short for meaningful summarization.".data)
    ∧ generate_summary none thirtyWordText 300 150 = thirtyWordText ++ ['.'] := by
  exact ⟨by decide, by decide, by decide⟩

/-! ## Claim C10 -/

/-- C10: if the spaCy handle is absent, or the tagging call fails,
`highlight_entities_in_text` returns its input text unchanged. -/
theorem highlight_failure_returns_input
    (nlp : Option (Str → Except Str (List SpacyEnt))) (t : Str)
    (h : nlp = none ∨ ∃ f e, nlp = some f ∧ f t = Except.error e) :
    highlight_entities_in_text nlp t = t := by
  rcases h with h | ⟨f, e, hf, he⟩
  · subst h; rfl
  · subst hf
    simp only [highlight_entities_in_text, he]

theorem highlight_failure_returns_input_witness :
    highlight_entities_in_text
        (some (fun _ => Except.error ("tagger failed".data)))
        ("Paris is great".data)
      = ("Paris is great".data) :=
  highlight_failure_returns_input _ _ (Or.inr ⟨_, ("tagger failed".data), rfl, rfl⟩)

/-! ## Claim C7 -/

/-- C7: `extract_expressions` returns at most 50 items,
`extract_formulas_with_context` at most 30, and every per-label list of
`extract_entities` has at most 20 entries (including the error maps of
the degraded paths). -/
theorem extraction_caps :
    (∀ t : Str, (extract_expressions t).length ≤ 50)
    ∧ (∀ (t : Str) (c : Nat), (extract_formulas_with_context t c).length ≤ 30)
    ∧ (∀ (tag : Option (Except Str (List SpacyEnt))) (p : Str × List Str),
        p ∈ extract_entities tag → p.2.length ≤ 20) := by
  refine ⟨?_, ?_, ?_⟩
  · intro t
    simp only [extract_expressions]
    exact List.length_take_le _ _
  · intro t c
    simp only [extract_formulas_with_context]
    exact List.length_take_le _ _
  · intro tag p hp
    match tag with
    | none =>
      simp only [extract_entities, List.mem_singleton] at hp
      subst hp
      decide
    | some (Except.error e) =>
      simp only [extract_entities, List.mem_singleton] at hp
      subst hp
      simp
    | some (Except.ok ents) =>
      simp only [extract_entities, extract_entities_core, List.map_map] at hp
      rw [List.mem_map] at hp
      obtain ⟨q, _, hq⟩ := hp
      subst hq
      simp only [Function.comp]
      exact List.length_take_le _ _

theorem extraction_caps_witness :
    ((("Locations".data, [("Paris".data)]) : Str × List Str)
        ∈ extract_entities (some (Except.ok [⟨0, 5, "Paris".data, "GPE".data⟩])))
    ∧ ([("Paris".data)] : List Str).length ≤ 20 :=
  ⟨by decide,
    extraction_caps.2.2 (some (Except.ok [⟨0, 5, "Paris".data, "GPE".data⟩]))
      (("Locations".data, [("Paris".data)])) (by decide)⟩

/-! ## Claim C8 -/

/-- C8 (amended): `extract_expressions` never returns two equal strings
(the deduplicating set is keyed by the cleaned string).  For the text
`"E = mc^2. E = mc^2."`, however, the returned list is exactly the
whole-sentence equation match and `"mc^2"`: the string `"E = mc^2"`
itself is not an element (see the counterexample). -/
theorem extract_expressions_nodup :
    (∀ t : Str, (extract_expressions t).Nodup)
    ∧ extract_expressions ("E = mc^2. E = mc^2.".data)
        = [("E = mc^2. E = mc^2.".data), ("mc^2".data)] := by
  constructor
  · intro t
    simp only [extract_expressions]
    apply List.Nodup.sublist (List.take_sublist _ _)
    apply (insSort_perm _ _).nodup_iff.mpr
    exact foldl_preserves (fun acc => List.Nodup acc)
      (fun acc m =>
        if m != [] && is_valid_math_expression m then
          insertNew (clean_expression m) acc
        else acc)
      (fun b a hb => by
        dsimp only
        split
        · exact insertNew_nodup _ _ hb
        · exact hb)
      (mathCandidates t) [] List.nodup_nil
  · decide

/-- C8 counterexample: in the dedup scenario text the cleaned expression
`"E = mc^2"` does not appear exactly once — it does not appear at all,
because the equation pattern greedily matches the whole two-sentence
string (the `.` and whitespace are inside its operand class). -/
theorem extract_expressions_dedup_counterexample :
    (extract_expressions ("E = mc^2. E = mc^2.".data)).count ("E = mc^2".data) ≠ 1
    ∧ ("E = mc^2".data) ∉ extract_expressions ("E = mc^2. E = mc^2.".data) := by
  exact ⟨by decide, by decide⟩

/-! ## Claim C5 -/

/-- Every candidate delivered to validation consists of characters of
the scanned text, except the one-space group of an all-whitespace
`$$…$$` match. -/
theorem mathCandidates_chars (t m : Str) (hm : m ∈ mathCandidates t) :
    (∀ c ∈ m, c ∈ t) ∨ m = [' '] := by
  unfold mathCandidates at hm
  simp only [List.mem_append, List.mem_map, or_assoc] at hm
  rcases hm with h | h | h | h | h | h | h | h | h | h | h | h
  · exact Or.inl (mem_of_mem_findAll _ _ _ h)
  · obtain ⟨raw, hraw, hg⟩ := h
    subst hg
    unfold dollarGroup
    split
    · exact Or.inr rfl
    · refine Or.inl ?_
      intro c hc
      have h1 := mem_of_mem_pyStrip _ _ hc
      have h2 := List.mem_of_mem_take h1
      have h3 := List.mem_of_mem_drop h2
      exact mem_of_mem_findAll _ _ _ hraw c h3
  · exact Or.inl (mem_of_mem_findAll _ _ _ h)
  · exact Or.inl (mem_of_mem_findAll _ _ _ h)
  · exact Or.inl (mem_of_mem_findAll _ _ _ h)
  · exact Or.inl (mem_of_mem_findAll _ _ _ h)
  · exact Or.inl (mem_of_mem_findAll _ _ _ h)
  · obtain ⟨raw, hraw, hg⟩ := h
    subst hg
    refine Or.inl ?_
    intro c hc
    have h1 := (List.takeWhile_sublist (l := raw) (p := Char.isAlpha)).mem hc
    exact mem_of_mem_findAll _ _ _ hraw c h1
  · exact Or.inl (mem_of_mem_findAll _ _ _ h)
  · exact Or.inl (mem_of_mem_findAll _ _ _ h)
  · exact Or.inl (mem_of_mem_findAll _ _ _ h)
  · exact Or.inl (mem_of_mem_findAll _ _ _ h)

/-- A candidate whose cleaned form contains no mathematical symbol is
rejected by `is_valid_math_expression`. -/
theorem invalid_of_no_symbol (m : Str)
    (h : mathSymbols.any (fun sym => (clean_expression m).contains sym) = false) :
    is_valid_math_expression m = false := by
  simp only [is_valid_math_expression]
  split
  · rfl
  · rw [h]
    simp

/-- Folding the validation step over a list of candidates that are all
invalid leaves the accumulator unchanged. -/
theorem expressions_foldl_nil (l : List Str) (acc : List Str)
    (h : ∀ m ∈ l, is_valid_math_expression m = false) :
    l.foldl
      (fun acc m =>
        if m != [] && is_valid_math_expression m then
          insertNew (clean_expression m) acc
        else acc) acc = acc := by
  induction l generalizing acc with
  | nil => rfl
  | cons a tl ih =>
    rw [List.foldl_cons]
    have ha : (a != [] && is_valid_math_expression a) = false := by
      rw [h a (List.mem_cons_self _ _), Bool.and_false]
    rw [ha]
    simp only [Bool.false_eq_true, if_false]
    exact ih _ (fun m hm => h m (List.mem_cons_of_mem a hm))

set_option maxHeartbeats 2000000 in
/-- C5 (amended): `is_valid_math_expression` rejects exactly the
candidates whose cleaned form has length outside `[3, 200]`, contains
no symbol of the fixed set, has fewer than 2 alphanumeric characters,
or whose lower-cased form contains a false-positive word as a
substring.  Consequently `extract_expressions` returns the empty list
on any text containing no symbol of the fixed set *and* neither `×`
nor `÷` (the cleaning step rewrites `×` to `*` and `÷` to `/`, which
are in the fixed set — see the counterexample for why the two extra
characters are needed). -/
theorem math_validity_characterization :
    (∀ expr : Str,
      is_valid_math_expression expr = false ↔
        ((clean_expression expr).length < 3
         ∨ 200 < (clean_expression expr).length
         ∨ (∀ sym ∈ mathSymbols, sym ∉ clean_expression expr)
         ∨ (clean_expression expr).countP pyIsAlnum < 2
         ∨ ∃ fp ∈ falsePositiveWords,
             hasSub fp (lowerStr (clean_expression expr)) = true))
    ∧ (∀ t : Str, (∀ c ∈ t, c ∉ mathSymbols ∧ c ≠ '×' ∧ c ≠ '÷') →
        extract_expressions t = []) := by
  constructor
  · intro expr
    simp only [is_valid_math_expression]
    by_cases h1 : ((clean_expression expr).length < 3
        || 200 < (clean_expression expr).length) = true
    · rw [if_pos h1]
      simp only [Bool.or_eq_true, decide_eq_true_eq] at h1
      simp only [true_iff]
      rcases h1 with h1 | h1
      · exact Or.inl h1
      · exact Or.inr (Or.inl h1)
    · rw [if_neg h1]
      simp only [Bool.or_eq_true, decide_eq_true_eq] at h1
      push_neg at h1
      by_cases h2 : (mathSymbols.any fun sym => (clean_expression expr).contains sym) = true
      · have h2' : (!(mathSymbols.any fun sym => (clean_expression expr).contains sym)) = false := by
          rw [h2]; rfl
        rw [h2', if_neg (by simp)]
        rw [List.any_eq_true] at h2
        obtain ⟨sym, hsym, hc⟩ := h2
        by_cases h3 : (clean_expression expr).countP pyIsAlnum < 2
        · rw [if_pos h3]
          simp only [true_iff]
          exact Or.inr (Or.inr (Or.inr (Or.inl h3)))
        · rw [if_neg h3]
          by_cases h4 : (falsePositiveWords.any fun fp =>
              hasSub fp (lowerStr (clean_expression expr))) = true
          · rw [if_pos h4]
            rw [List.any_eq_true] at h4
            obtain ⟨fp, hfp, hsub⟩ := h4
            simp only [true_iff]
            exact Or.inr (Or.inr (Or.inr (Or.inr ⟨fp, hfp, hsub⟩)))
          · rw [if_neg h4]
            rw [List.any_eq_true] at h4
            push_neg at h4
            simp only [Bool.true_eq_false, false_iff]
            intro hdisj
            rcases hdisj with h | h | h | h | ⟨fp, hfp, hsub⟩
            · omega
            · omega
            · exact h sym hsym (List.elem_iff.mp hc)
            · omega
            · exact h4 fp hfp hsub
      · have h2' : (!(mathSymbols.any fun sym => (clean_expression expr).contains sym)) = true := by
          rw [Bool.not_eq_true] at h2
          rw [h2]; rfl
        rw [if_pos h2']
        rw [Bool.not_eq_true, List.any_eq_false] at h2
        simp only [true_iff]
        refine Or.inr (Or.inr (Or.inl ?_))
        intro sym hsym hmem
        exact h2 sym hsym (List.elem_iff.mpr hmem)
  · intro t ht
    have hinv : ∀ m ∈ mathCandidates t, is_valid_math_expression m = false := by
      intro m hm
      rcases mathCandidates_chars t m hm with hchars | hsp
      · apply invalid_of_no_symbol
        rw [List.any_eq_false]
        intro sym hsym hc
        have hc2 : sym ∈ clean_expression m := List.elem_iff.mp hc
        rcases mem_clean_expression m sym hc2 with h | h | ⟨he, hx⟩ | ⟨he, hx⟩
        · subst h
          revert hsym
          decide
        · exact ((ht sym (hchars sym h)).1 hsym)
        · exact (ht '×' (hchars '×' hx)).2.1 rfl
        · exact (ht '÷' (hchars '÷' hx)).2.2 rfl
      · subst hsp
        decide
    simp only [extract_expressions]
    rw [expressions_foldl_nil _ _ hinv]
    rfl

theorem math_validity_characterization_witness :
    (∀ c ∈ ("hello there.".data), c ∉ mathSymbols ∧ c ≠ '×' ∧ c ≠ '÷')
    ∧ extract_expressions ("hello there.".data) = [] :=
  ⟨by decide, math_validity_characterization.2 _ (by decide)⟩

/-- C5 counterexample: the text `"5 × 103"` contains no character of
the fixed mathematical-symbol set, yet `extract_expressions` returns a
non-empty list: the scientific-notation pattern matches, and cleaning
rewrites `×` to `*`, which is in the symbol set. -/
theorem extract_expressions_symbol_counterexample :
    (∀ c ∈ ("5 × 103".data), c ∉ mathSymbols)
    ∧ extract_expressions ("5 × 103".data) = [("5 * 103".data)] := by
  exact ⟨by decide, by decide⟩

/-! ## Claim C4 -/

def headNotSpace (s : Str) : Prop :=
  ∀ c, s.head? = some c → isPySpace c = false

def lastNotSpace (s : Str) : Prop :=
  ∀ c, s.getLast? = some c → isPySpace c = false

/-- A sentence as produced by stripping: non-empty with non-whitespace
first and last characters. -/
def goodSent (s : Str) : Prop := s ≠ [] ∧ headNotSpace s ∧ lastNotSpace s

theorem dropWhile_eq_self_of_head (p : Char → Bool) (l : Str)
    (h : ∀ c, l.head? = some c → p c = false) : l.dropWhile p = l := by
  cases l with
  | nil => rfl
  | cons a t =>
    rw [List.dropWhile_cons, h a rfl]
    simp

theorem getLast?_dropWhile (p : Char → Bool) (l : Str)
    (h : l.dropWhile p ≠ []) : (l.dropWhile p).getLast? = l.getLast? := by
  induction l with
  | nil => simp at h
  | cons a t ih =>
    rw [List.dropWhile_cons] at h ⊢
    by_cases hp : p a = true
    · rw [hp] at h ⊢
      simp only [if_true] at h ⊢
      have ht : t ≠ [] := by
        intro he
        subst he
        simp at h
      rw [ih h]
      match t, ht with
      | b :: t', _ => rfl
    · rw [if_neg hp] at h ⊢

theorem head?_pyStrip_not (s : Str) : headNotSpace (pyStrip s) := by
  intro c hc
  unfold pyStrip at hc
  rw [List.head?_reverse] at hc
  have hne : ((s.dropWhile isPySpace).reverse.dropWhile isPySpace) ≠ [] := by
    intro he
    rw [he] at hc
    simp at hc
  rw [getLast?_dropWhile _ _ hne] at hc
  rw [List.getLast?_reverse] at hc
  have := List.head?_dropWhile_not isPySpace s
  rw [hc] at this
  exact this

theorem getLast?_pyStrip_not (s : Str) : lastNotSpace (pyStrip s) := by
  intro c hc
  unfold pyStrip at hc
  rw [List.getLast?_reverse] at hc
  have := List.head?_dropWhile_not isPySpace (s.dropWhile isPySpace).reverse
  rw [hc] at this
  exact this

theorem goodSent_pyStrip (s : Str) (h : pyStrip s ≠ []) : goodSent (pyStrip s) :=
  ⟨h, head?_pyStrip_not s, getLast?_pyStrip_not s⟩

theorem pyStrip_eq_self (s : Str) (h1 : headNotSpace s) (h2 : lastNotSpace s) :
    pyStrip s = s := by
  unfold pyStrip
  rw [dropWhile_eq_self_of_head _ _ h1]
  rw [dropWhile_eq_self_of_head _ _ (fun c hc => h2 c (by rwa [List.head?_reverse] at hc))]
  exact List.reverse_reverse s

theorem joinSep_append_singleton (sep : Str) (g : List Str) (s : Str) (h : g ≠ []) :
    joinSep sep (g ++ [s]) = joinSep sep g ++ sep ++ s := by
  induction g with
  | nil => exact absurd rfl h
  | cons x g' ih =>
    cases g' with
    | nil => rfl
    | cons y g'' =>
      have hne : y :: g'' ≠ [] := by simp
      calc joinSep sep ((x :: y :: g'') ++ [s])
          = x ++ sep ++ joinSep sep ((y :: g'') ++ [s]) := rfl
        _ = x ++ sep ++ (joinSep sep (y :: g'') ++ sep ++ s) := by rw [ih hne]
        _ = (x ++ sep ++ joinSep sep (y :: g'')) ++ sep ++ s := by
              simp [List.append_assoc]

theorem joinSep_ne_nil (sep : Str) (g : List Str) (hg : g ≠ [])
    (h : ∀ s ∈ g, s ≠ []) : joinSep sep g ≠ [] := by
  match g, hg with
  | [x], _ =>
    exact h x (List.mem_singleton.mpr rfl)
  | x :: y :: ys, _ =>
    have hx : x ≠ [] := h x (List.mem_cons_self _ _)
    show x ++ sep ++ joinSep sep (y :: ys) ≠ []
    simp [hx]

theorem headNotSpace_joinSep (sep : Str) (g : List Str)
    (hall : ∀ s ∈ g, goodSent s) : headNotSpace (joinSep sep g) := by
  match g with
  | [] => intro c hc; simp [joinSep] at hc
  | [x] => exact (hall x (List.mem_singleton.mpr rfl)).2.1
  | x :: y :: ys =>
    intro c hc
    have hx := hall x (List.mem_cons_self _ _)
    show isPySpace c = false
    apply hx.2.1
    rw [← hc]
    show x.head? = (x ++ sep ++ joinSep sep (y :: ys)).head?
    rw [List.append_assoc, List.head?_append_of_ne_nil _ hx.1]

theorem lastNotSpace_joinSep (sep : Str) (g : List Str)
    (hall : ∀ s ∈ g, goodSent s) : lastNotSpace (joinSep sep g) := by
  induction g with
  | nil => intro c hc; simp [joinSep] at hc
  | cons x g' ih =>
    match g' with
    | [] => exact (hall x (List.mem_singleton.mpr rfl)).2.2
    | y :: ys =>
      intro c hc
      have hjoin_ne : joinSep sep (y :: ys) ≠ [] :=
        joinSep_ne_nil sep _ (by simp)
          (fun s hs => (hall s (List.mem_cons_of_mem x hs)).1)
      apply ih (fun s hs => hall s (List.mem_cons_of_mem x hs)) c
      rw [← hc]
      show (joinSep sep (y :: ys)).getLast? = (x ++ sep ++ joinSep sep (y :: ys)).getLast?
      rw [List.getLast?_append_of_ne_nil _ hjoin_ne]

theorem pyStrip_joinSep (sep : Str) (g : List Str)
    (hall : ∀ s ∈ g, goodSent s) : pyStrip (joinSep sep g) = joinSep sep g :=
  pyStrip_eq_self _ (headNotSpace_joinSep sep g hall) (lastNotSpace_joinSep sep g hall)

/-- The stripped non-empty sentences of a raw sentence list. -/
def cleanSents (l : List Str) : List Str :=
  (l.map pyStrip).filter (fun s => s != [])

/-- The sentences that `split_text_into_chunks` actually accumulates. -/
def sentencesOf (t : Str) : List Str := cleanSents (splitTerm t)

/-- The greedy grouping described by the spec, on the sentence list:
a new group starts exactly when the current group is non-empty and the
joined length of the current group plus the next sentence's length
would exceed the bound. -/
def greedyGroupsAux (bound : Nat) : List Str → List Str → List (List Str)
  | [], g => if g = [] then [] else [g]
  | s :: rest, g =>
    if bound < (joinSep (". ".data) g).length + s.length && g != [] then
      g :: greedyGroupsAux bound rest [s]
    else if g = [] then greedyGroupsAux bound rest [s]
    else greedyGroupsAux bound rest (g ++ [s])

def greedyGroups (bound : Nat) (sents : List Str) : List (List Str) :=
  greedyGroupsAux bound sents []

theorem cleanSents_cons (r : Str) (rest : List Str) :
    cleanSents (r :: rest) =
      if pyStrip r = [] then cleanSents rest else pyStrip r :: cleanSents rest := by
  simp only [cleanSents, List.map_cons, List.filter_cons]
  by_cases h : pyStrip r = []
  · rw [if_neg (by simp [h]), if_pos h]
  · rw [if_pos (by simp [h]), if_neg h]

/-- Bridge between the source accumulation loop and the spec-side
greedy grouping: with the current chunk being the join of an
all-good group, the loop emits exactly the joins of the greedy groups
over the stripped non-empty remaining sentences. -/
theorem splitChunksAux_eq_greedy (bound : Nat) :
    ∀ (raw : List Str) (g : List Str), (∀ s ∈ g, goodSent s) →
      splitChunksAux bound raw (joinSep (". ".data) g)
        = (greedyGroupsAux bound (cleanSents raw) g).map (joinSep (". ".data)) := by
  intro raw
  induction raw with
  | nil =>
    intro g hg
    simp only [splitChunksAux, cleanSents, List.map_nil, List.filter_nil, greedyGroupsAux]
    rw [pyStrip_joinSep _ _ hg]
    by_cases hgn : g = []
    · subst hgn
      rfl
    · have hne := joinSep_ne_nil (". ".data) g hgn (fun s hs => (hg s hs).1)
      simp [hne, hgn]
  | cons r rest ih =>
    intro g hg
    rw [cleanSents_cons]
    simp only [splitChunksAux]
    by_cases hs : pyStrip r = []
    · rw [if_pos hs, if_pos hs]
      exact ih g hg
    · have hgood := goodSent_pyStrip r hs
      have hsingle : ∀ s ∈ ([pyStrip r] : List Str), goodSent s := by
        intro s hs2
        rw [List.mem_singleton] at hs2
        subst hs2
        exact hgood
      rw [if_neg hs, if_neg hs]
      have hjoin_eq : (joinSep (". ".data) g != []) = (g != []) := by
        by_cases hgn : g = []
        · subst hgn
          rfl
        · have hne := joinSep_ne_nil (". ".data) g hgn (fun s hs => (hg s hs).1)
          have h1 : (joinSep (". ".data) g != []) = true := by
            simpa [bne_iff_ne] using hne
          have h2 : (g != []) = true := by
            simpa [bne_iff_ne] using hgn
          rw [h1, h2]
      rw [hjoin_eq]
      unfold greedyGroupsAux
      by_cases hcond : (bound < (joinSep (". ".data) g).length + (pyStrip r).length
          && g != []) = true
      · rw [if_pos hcond, if_pos hcond, pyStrip_joinSep _ _ hg, List.map_cons]
        congr 1
        have h1 := ih [pyStrip r] hsingle
        simpa [joinSep] using h1
      · rw [if_neg hcond, if_neg hcond]
        by_cases hgn : g = []
        · subst hgn
          rw [if_pos (show joinSep (". ".data) [] = [] from rfl), if_pos rfl]
          have h1 := ih [pyStrip r] hsingle
          simpa [joinSep] using h1
        · have hne := joinSep_ne_nil (". ".data) g hgn (fun s hs => (hg s hs).1)
          rw [if_neg hne, if_neg hgn]
          have hgapp : ∀ s ∈ g ++ [pyStrip r], goodSent s := by
            intro s hs2
            rcases List.mem_append.mp hs2 with h | h
            · exact hg s h
            · rw [List.mem_singleton] at h
              subst h
              exact hgood
          have h1 := ih (g ++ [pyStrip r]) hgapp
          rw [joinSep_append_singleton _ _ _ hgn] at h1
          exact h1

theorem greedyGroupsAux_join (bound : Nat) :
    ∀ (sents : List Str) (g : List Str),
      (greedyGroupsAux bound sents g).flatten = g ++ sents := by
  intro sents
  induction sents with
  | nil =>
    intro g
    unfold greedyGroupsAux
    by_cases hg : g = []
    · subst hg
      rfl
    · rw [if_neg hg]
      simp
  | cons s rest ih =>
    intro g
    unfold greedyGroupsAux
    split
    · rw [List.flatten_cons, ih]
      simp
    · split
      · next hg =>
        subst hg
        rw [ih]
        rfl
      · rw [ih]
        simp

theorem greedyGroupsAux_groups (bound : Nat) :
    ∀ (sents : List Str) (g : List Str),
      (2 ≤ g.length → (joinSep (". ".data) g).length ≤ bound + 2) →
      ∀ h ∈ greedyGroupsAux bound sents g,
        h ≠ [] ∧ (2 ≤ h.length → (joinSep (". ".data) h).length ≤ bound + 2) := by
  intro sents
  induction sents with
  | nil =>
    intro g hPg h hmem
    unfold greedyGroupsAux at hmem
    split at hmem
    · simp at hmem
    · next hg =>
      rw [List.mem_singleton] at hmem
      subst hmem
      exact ⟨hg, hPg⟩
  | cons s rest ih =>
    intro g hPg h hmem
    unfold greedyGroupsAux at hmem
    split at hmem
    · next hcond =>
      rcases List.mem_cons.mp hmem with h1 | h1
      · subst h1
        have hgne : h ≠ [] := by
          simp only [Bool.and_eq_true, bne_iff_ne] at hcond
          exact hcond.2
        exact ⟨hgne, hPg⟩
      · exact ih [s] (by intro h2; simp at h2) h h1
    · split at hmem
      · exact ih [s] (by intro h2; simp at h2) h hmem
      · next hcond hg =>
        refine ih (g ++ [s]) ?_ h hmem
        intro _
        rw [joinSep_append_singleton _ _ _ hg]
        simp only [Bool.and_eq_true, bne_iff_ne, decide_eq_true_eq] at hcond
        have hb : ¬ bound < (joinSep (". ".data) g).length + s.length := by
          intro hlt
          exact hcond ⟨hlt, hg⟩
        rw [List.length_append, List.length_append]
        have h2 : (". ".data).length = 2 := rfl
        omega

/-- C4 (amended): `split_text_into_chunks` produces exactly the joins of
the greedy grouping of the stripped non-empty sentences (a new chunk
starts exactly when the current chunk is non-empty and adding the next
sentence would push the length check past the bound); the groups
partition the sentence sequence in order; every chunk is non-empty; and
a chunk of at least two sentences has length at most `bound + 2` (the
`". "` separator of the final append is not counted by the check).  A
single-sentence chunk can be arbitrarily long, so the original
"stays under the bound" fails — see the counterexample. -/
theorem split_text_into_chunks_greedy (t : Str) (bound : Nat) :
    split_text_into_chunks t bound
        = (greedyGroups bound (sentencesOf t)).map (joinSep (". ".data))
    ∧ (greedyGroups bound (sentencesOf t)).flatten = sentencesOf t
    ∧ ∀ g ∈ greedyGroups bound (sentencesOf t),
        g ≠ [] ∧ (2 ≤ g.length → (joinSep (". ".data) g).length ≤ bound + 2) := by
  refine ⟨?_, ?_, ?_⟩
  · have h := splitChunksAux_eq_greedy bound (splitTerm t) [] (by intro s hs; simp at hs)
    simpa [split_text_into_chunks, greedyGroups, sentencesOf] using h
  · have h := greedyGroupsAux_join bound (sentencesOf t) []
    simpa [greedyGroups] using h
  · intro g hg
    exact greedyGroupsAux_groups bound (sentencesOf t) [] (by intro h2; simp at h2) g hg

theorem split_text_into_chunks_greedy_witness :
    (["aa".data, "bb".data] ∈ greedyGroups 7 (sentencesOf ("aa. bb. cc. dd".data)))
    ∧ ((["aa".data, "bb".data] : List Str) ≠ []
       ∧ (2 ≤ ([("aa".data), ("bb".data)] : List Str).length →
           (joinSep (". ".data) ["aa".data, "bb".data]).length ≤ 7 + 2)) :=
  ⟨by decide, (split_text_into_chunks_greedy ("aa. bb. cc. dd".data) 7).2.2 _ (by decide)⟩

/-- C4 counterexample: a single 810-character sentence with no sentence
terminator becomes one chunk of length 810, exceeding the configured
bound of 800 used by `generate_summary`. -/
theorem split_text_into_chunks_bound_counterexample :
    split_text_into_chunks (List.replicate 810 'a') 800 = [List.replicate 810 'a']
    ∧ 800 < (List.replicate 810 'a').length := by
  constructor
  · decide
  · simp

/-! ## Claim C3 -/

/-- Non-overlap of consecutive ascending spans: each ends at or before
the next one starts. -/
def entRel (a b : SpacyEnt) : Prop := a.endChar ≤ b.startChar

/-- The intended rendering: copy the text up to each span, emit the
span's text wrapped in `**`, and continue after the span's end. -/
def wrapFrom (t : Str) (pos : Nat) : List SpacyEnt → Str
  | [] => t.drop pos
  | x :: rest =>
      (t.drop pos).take (x.startChar - pos) ++ ("**".data) ++ x.txt ++ ("**".data)
        ++ wrapFrom t x.endChar rest

theorem ordIns_eq_append (le : α → α → Bool) (a : α) (l : List α)
    (h : ∀ x ∈ l, le a x = false) : ordIns le a l = l ++ [a] := by
  induction l with
  | nil => rfl
  | cons b t ih =>
    unfold ordIns
    rw [h b (List.mem_cons_self _ _)]
    simp only [Bool.false_eq_true, if_false, List.cons_append]
    rw [ih (fun x hx => h x (List.mem_cons_of_mem b hx))]

theorem chain_endChar_le :
    ∀ (rest : List SpacyEnt) (x : SpacyEnt),
      List.Chain' entRel (x :: rest) →
      (∀ e ∈ x :: rest, e.startChar < e.endChar) →
      ∀ e ∈ rest, x.endChar ≤ e.startChar := by
  intro rest
  induction rest with
  | nil => intro x _ _ e he; simp at he
  | cons b t ih =>
    intro x hchain hlt e he
    have hxb : entRel x b := (List.chain'_cons.mp hchain).1
    rcases List.mem_cons.mp he with rfl | he'
    · exact hxb
    · have hbe := ih b (List.chain'_cons.mp hchain).2
        (fun e' he' => hlt e' (List.mem_cons_of_mem _ he')) e he'
      have hbb := hlt b (List.mem_cons_of_mem _ (List.mem_cons_self _ _))
      unfold entRel at hxb hbe
      omega

/-- Sorting a strictly ascending span list by start position in reverse
order yields exactly the reversed list. -/
theorem insSortDesc_of_ascending :
    ∀ (es : List SpacyEnt),
      List.Chain' entRel es →
      (∀ e ∈ es, e.startChar < e.endChar) →
      insSort (fun a b => b.startChar ≤ a.startChar) es = es.reverse := by
  intro es
  induction es with
  | nil => intro _ _; rfl
  | cons a l ih =>
    intro hchain hlt
    show ordIns (fun a b => b.startChar ≤ a.startChar) a
        (insSort (fun a b => b.startChar ≤ a.startChar) l) = (a :: l).reverse
    rw [ih hchain.tail (fun e he => hlt e (List.mem_cons_of_mem a he))]
    rw [ordIns_eq_append]
    · rw [List.reverse_cons]
    · intro x hx
      rw [List.mem_reverse] at hx
      have h1 := chain_endChar_le l a hchain hlt x hx
      have h2 := hlt a (List.mem_cons_self _ _)
      simp only [decide_eq_false_iff_not]
      omega

/-- The core induction: applying the replacements from the largest
start to the smallest produces the left-to-right rendering. -/
theorem highlight_foldr_wrap (t : Str) :
    ∀ (es : List SpacyEnt) (pos : Nat),
      (∀ e ∈ es, pos ≤ e.startChar) →
      List.Chain' entRel es →
      (∀ e ∈ es, e.startChar < e.endChar ∧ e.endChar ≤ t.length
            ∧ e.txt = (t.drop e.startChar).take (e.endChar - e.startChar)) →
      es.foldr (fun x acc => highlightReplace acc x) t
        = t.take pos ++ wrapFrom t pos es := by
  intro es
  induction es with
  | nil =>
    intro pos _ _ _
    rw [List.foldr_nil]
    show t = t.take pos ++ t.drop pos
    rw [List.take_append_drop]
  | cons x rest ih =>
    intro pos hpos hchain hb
    obtain ⟨hx1, hx2, hx3⟩ := hb x (List.mem_cons_self _ _)
    have hp := hpos x (List.mem_cons_self _ _)
    rw [List.foldr_cons]
    have hrestpos := chain_endChar_le rest x hchain (fun e he => (hb e he).1)
    rw [ih x.endChar hrestpos hchain.tail (fun e he => hb e (List.mem_cons_of_mem x he))]
    unfold highlightReplace
    have hA : (t.take x.endChar).length = x.endChar :=
      List.length_take_of_le hx2
    rw [List.take_append_eq_append_take, List.drop_append_eq_append_drop, hA]
    have hse : x.startChar - x.endChar = 0 := by omega
    have hee : x.endChar - x.endChar = 0 := by omega
    have hdrop : (t.take x.endChar).drop x.endChar = [] := by
      have h := List.drop_length (t.take x.endChar)
      rwa [hA] at h
    rw [hse, hee, List.take_zero, List.drop_zero, List.take_take, hdrop]
    have hmin : min x.startChar x.endChar = x.startChar := by omega
    rw [hmin]
    have htake : t.take pos ++ (t.drop pos).take (x.startChar - pos)
        = t.take x.startChar := by
      have h := List.take_add t pos (x.startChar - pos)
      rw [show pos + (x.startChar - pos) = x.startChar from by omega] at h
      exact h.symm
    simp only [wrapFrom]
    rw [← htake]
    simp [List.append_assoc]

/-- C3: for validated spans in ascending order — pairwise non-overlapping,
each with `start < end ≤ len` and carrying exactly the text slice
`t[start:end]` — the sort-descending replacement loop produces exactly
the original text with each span's substring wrapped as `**substring**`
and every character outside the spans unchanged (the `wrapFrom`
rendering); with an empty span list the text is returned unchanged. -/
theorem highlight_entities_offset_safe (t : Str) (es : List SpacyEnt)
    (hchain : List.Chain' entRel es)
    (hb : ∀ e ∈ es, e.startChar < e.endChar ∧ e.endChar ≤ t.length
          ∧ e.txt = (t.drop e.startChar).take (e.endChar - e.startChar)) :
    highlightApply t es = wrapFrom t 0 es ∧ highlightApply t [] = t := by
  constructor
  · unfold highlightApply
    rw [insSortDesc_of_ascending es hchain (fun e he => (hb e he).1)]
    rw [List.foldl_reverse]
    rw [highlight_foldr_wrap t es 0 (fun e _ => Nat.zero_le _) hchain hb]
    rw [List.take_zero, List.nil_append]
  · rfl

theorem highlight_entities_offset_safe_witness :
    (highlightApply ("Paris is great".data)
        [⟨0, 5, "Paris".data, "GPE".data⟩]
      = wrapFrom ("Paris is great".data) 0 [⟨0, 5, "Paris".data, "GPE".data⟩])
    ∧ highlightApply ("Paris is great".data) [⟨0, 5, "Paris".data, "GPE".data⟩]
        = ("**Paris** is great".data) :=
  ⟨(highlight_entities_offset_safe ("Paris is great".data)
      [⟨0, 5, "Paris".data, "GPE".data⟩]
      (List.chain'_singleton _)
      (by decide)).1,
   by decide⟩

/-! ## Claim C9 -/

/-- What it means to be a kept fact of `text`: a whitespace-normalized,
stripped context window around some position, clamped to `[0, len]`
(`Nat` subtraction clamps the left edge at 0, `min` the right edge at
`len`), with the window radius and length threshold of one of the two
pattern families, and length above that threshold. -/
def factProp (t f : Str) : Prop :=
  ∃ c τ pos mlen, ((c = 50 ∧ τ = 20) ∨ (c = 40 ∧ τ = 15))
    ∧ τ < f.length
    ∧ f = normWs (pyStrip ((t.drop (pos - c)).take (min t.length (pos + mlen + c) - (pos - c))))

theorem mem_addCtx (t : Str) (c τ : Nat) (facts : List Str) (m f : Str)
    (hf : f ∈ addCtx t c τ facts m) :
    f ∈ facts ∨ (τ < f.length
      ∧ ∃ pos, f = normWs (pyStrip ((t.drop (pos - c)).take
          (min t.length (pos + m.length + c) - (pos - c))))) := by
  unfold addCtx at hf
  split at hf
  · exact Or.inl hf
  · split at hf
    · next hcond =>
      rcases List.mem_append.mp hf with h | h
      · exact Or.inl h
      · rw [List.mem_singleton] at h
        subst h
        simp only [Bool.and_eq_true, decide_eq_true_eq] at hcond
        exact Or.inr ⟨hcond.1, _, rfl⟩
    · exact Or.inl hf

theorem addCtx_nodup (t : Str) (c τ : Nat) (facts : List Str) (m : Str)
    (hN : facts.Nodup) : (addCtx t c τ facts m).Nodup := by
  unfold addCtx
  split
  · exact hN
  · split
    · next hcond =>
      simp only [Bool.and_eq_true, Bool.not_eq_true'] at hcond
      rw [List.nodup_append]
      refine ⟨hN, List.nodup_singleton _, ?_⟩
      intro a ha hb
      rw [List.mem_singleton] at hb
      subst hb
      exact absurd (List.elem_iff.mpr ha)
        (fun hcontra => absurd (hcontra.symm.trans hcond.2) (by decide))
    · exact hN

/-- C9: `extract_facts_and_figures` is total on every input (it is a
plain function of the text), returns at most 10 facts with no
duplicates, and every returned fact is the whitespace-normalization of
a stripped context window clamped to `[0, len(text)]` — radius 50 with
threshold 20 for the numeric families, radius 40 with threshold 15 for
the date families — whose normalized length exceeds the threshold. -/
theorem extract_facts_bounds (t : Str) :
    (extract_facts_and_figures t).length ≤ 10
    ∧ (extract_facts_and_figures t).Nodup
    ∧ ∀ f ∈ extract_facts_and_figures t, 15 < f.length ∧ factProp t f := by
  have inv : ∀ (c τ : Nat), ((c = 50 ∧ τ = 20) ∨ (c = 40 ∧ τ = 15)) →
      ∀ (pats : List Pat) (fs : List Str),
        (fs.Nodup ∧ ∀ f ∈ fs, factProp t f) →
        ((pats.foldl (fun fs p => (findAll p t).foldl (addCtx t c τ) fs) fs).Nodup
         ∧ ∀ f ∈ pats.foldl (fun fs p => (findAll p t).foldl (addCtx t c τ) fs) fs,
             factProp t f) := by
    intro c τ hcase pats fs hfs
    refine foldl_preserves (fun fs => fs.Nodup ∧ ∀ f ∈ fs, factProp t f)
      (fun fs p => (findAll p t).foldl (addCtx t c τ) fs) ?_ pats fs hfs
    intro b p hb
    refine foldl_preserves (fun fs => fs.Nodup ∧ ∀ f ∈ fs, factProp t f)
      (addCtx t c τ) ?_ (findAll p t) b hb
    intro b2 m hb2
    constructor
    · exact addCtx_nodup t c τ b2 m hb2.1
    · intro f hf
      rcases mem_addCtx t c τ b2 m f hf with h | ⟨hτ, pos, heq⟩
      · exact hb2.2 f h
      · exact ⟨c, τ, pos, m.length, hcase, hτ, heq⟩
  have h1 := inv 50 20 (Or.inl ⟨rfl, rfl⟩) numberPats []
    ⟨List.nodup_nil, by intro f hf; simp at hf⟩
  have h2 := inv 40 15 (Or.inr ⟨rfl, rfl⟩) datePats _ h1
  unfold extract_facts_and_figures
  refine ⟨List.length_take_le _ _, List.Nodup.sublist (List.take_sublist _ _) h2.1, ?_⟩
  intro f hf
  have hf2 := List.mem_of_mem_take hf
  have hp := h2.2 f hf2
  obtain ⟨c, τ, pos, mlen, hcase, hτ, heq⟩ := hp
  have h15 : 15 < f.length := by
    rcases hcase with ⟨_, rfl⟩ | ⟨_, rfl⟩
    · omega
    · omega
  exact ⟨h15, c, τ, pos, mlen, hcase, hτ, heq⟩

theorem extract_facts_bounds_witness :
    (("In 2019 the company grew a lot more than expected.".data)
        ∈ extract_facts_and_figures
            ("In 2019 the company grew a lot more than expected.".data))
    ∧ (15 < ("In 2019 the company grew a lot more than expected.".data).length
       ∧ factProp ("In 2019 the company grew a lot more than expected.".data)
           ("In 2019 the company grew a lot more than expected.".data)) :=
  ⟨by decide,
    (extract_facts_bounds ("In 2019 the company grew a lot more than expected.".data)).2.2
      _ (by decide)⟩

/-! ## Claim C6 -/

/-- Strengthened membership for run substitution: a character of the
output is either from the replacement or a character of the input not
matched by the class. -/
theorem mem_subRuns_class (bad : Char → Bool) (rep s : Str) (c : Char)
    (hc : c ∈ subRuns bad rep s) : c ∈ rep ∨ (c ∈ s ∧ bad c = false) := by
  unfold subRuns at hc
  induction s with
  | nil => simp at hc
  | cons d t ih =>
    rw [List.foldr_cons] at hc
    split at hc
    · next hbad =>
      split at hc
      · rcases ih hc with h | h
        · exact Or.inl h
        · exact Or.inr ⟨List.mem_cons_of_mem d h.1, h.2⟩
      · rcases List.mem_append.mp hc with h | h
        · exact Or.inl h
        · rcases ih h with h1 | h1
          · exact Or.inl h1
          · exact Or.inr ⟨List.mem_cons_of_mem d h1.1, h1.2⟩
    · next hbad =>
      rcases List.mem_cons.mp hc with h | h
      · subst h
        exact Or.inr ⟨List.mem_cons_self _ _, by simpa using hbad⟩
      · rcases ih h with h1 | h1
        · exact Or.inl h1
        · exact Or.inr ⟨List.mem_cons_of_mem d h1.1, h1.2⟩

/-- Adjacent characters are never both whitespace. -/
def wsRel (a b : Char) : Prop := ¬(isPySpace a = true ∧ isPySpace b = true)

theorem collapseWs_chain (s : Str) : List.Chain' wsRel (collapseWs s) := by
  have key : ∀ s : Str,
      List.Chain' wsRel (s.foldr
        (fun c (acc : Str × Bool) =>
          if isPySpace c then
            if acc.2 then acc else ([' '] ++ acc.1, true)
          else (c :: acc.1, false)) ([], false)).1
      ∧ ((s.foldr
          (fun c (acc : Str × Bool) =>
            if isPySpace c then
              if acc.2 then acc else ([' '] ++ acc.1, true)
            else (c :: acc.1, false)) ([], false)).2 = false →
        headNotSpace (s.foldr
          (fun c (acc : Str × Bool) =>
            if isPySpace c then
              if acc.2 then acc else ([' '] ++ acc.1, true)
            else (c :: acc.1, false)) ([], false)).1) := by
    intro s
    induction s with
    | nil =>
      constructor
      · exact List.chain'_nil
      · intro _ c hc
        simp at hc
    | cons c t ih =>
      rw [List.foldr_cons]
      by_cases hsp : isPySpace c = true
      · rw [hsp]
        simp only [if_true]
        split
        · exact ⟨ih.1, fun hf c' hc' => ih.2 hf c' hc'⟩
        · next hflag =>
          constructor
          · dsimp only
            rw [List.singleton_append, List.chain'_cons']
            refine ⟨?_, ih.1⟩
            intro b hb
            have hb2 := ih.2 (by simpa using hflag) b hb
            intro hcontra
            rw [hb2] at hcontra
            exact absurd hcontra.2 (by simp)
          · intro hcontra
            simp at hcontra
      · rw [if_neg (by simpa using hsp)]
        constructor
        · dsimp only
          rw [List.chain'_cons']
          refine ⟨?_, ih.1⟩
          intro b _
          intro hcontra
          exact absurd hcontra.1 (by simpa using hsp)
        · intro _ c' hc'
          dsimp only at hc'
          simp only [List.head?_cons, Option.some.injEq] at hc'
          subst hc'
          simpa using hsp
  exact (key s).1

theorem chain'_dropWhile (r : Char → Char → Prop) (p : Char → Bool) (l : Str)
    (h : List.Chain' r l) : List.Chain' r (l.dropWhile p) := by
  induction l with
  | nil => exact h
  | cons a t ih =>
    rw [List.dropWhile_cons]
    split
    · exact ih h.tail
    · exact h

theorem chain'_drop (r : Char → Char → Prop) (l : Str) (n : Nat)
    (h : List.Chain' r l) : List.Chain' r (l.drop n) := by
  induction n generalizing l with
  | zero => simpa using h
  | succ n ih =>
    match l with
    | [] => simp
    | a :: t =>
      rw [List.drop_succ_cons]
      exact ih t h.tail

/-- `wsRel` is symmetric, so chains survive reversal. -/
theorem chain'_wsRel_reverse (l : Str) (h : List.Chain' wsRel l) :
    List.Chain' wsRel l.reverse := by
  rw [List.chain'_reverse]
  exact List.Chain'.imp (fun a b hab => fun hc => hab ⟨hc.2, hc.1⟩) h

theorem chain'_stripLeadDollars (l : Str) (h : List.Chain' wsRel l) :
    List.Chain' wsRel (stripLeadDollars l) := by
  unfold stripLeadDollars
  split
  · exact chain'_dropWhile _ _ _ (chain'_drop _ _ _ h)
  · exact h

theorem chain'_stripDollars (l : Str) (h : List.Chain' wsRel l) :
    List.Chain' wsRel (stripDollars l) := by
  unfold stripDollars
  exact chain'_wsRel_reverse _
    (chain'_stripLeadDollars _ (chain'_wsRel_reverse _ (chain'_stripLeadDollars _ h)))

theorem chain'_wsRel_map (f : Char → Char) (l : Str)
    (hf : ∀ c, isPySpace (f c) = isPySpace c)
    (h : List.Chain' wsRel l) : List.Chain' wsRel (l.map f) := by
  rw [List.chain'_map]
  refine List.Chain'.imp ?_ h
  intro a b hab
  intro hc
  rw [hf a, hf b] at hc
  exact hab hc

theorem normMul_space (c : Char) :
    isPySpace (if c == '×' then '*' else c) = isPySpace c := by
  by_cases h : c = '×'
  · subst h
    decide
  · rw [if_neg (by simpa using h)]

theorem normDiv_space (c : Char) :
    isPySpace (if c == '÷' then '/' else c) = isPySpace c := by
  by_cases h : c = '÷'
  · subst h
    decide
  · rw [if_neg (by simpa using h)]

/-- C6: `clean_expression` yields `×`/`÷`-free output (they are
rewritten to `*` and `/`), every whitespace character of the output is
a single plain space and no two adjacent characters are both
whitespace (runs are collapsed); the `$$`-delimiter scenario returns
exactly `["x + y = z"]`, and a concrete cleaning shows collapse, trim,
delimiter stripping and symbol normalization together. -/
theorem clean_expression_normalizes :
    extract_expressions ("$$ x + y = z $$".data) = [("x + y = z".data)]
    ∧ (∀ e : Str, (clean_expression e).contains '×' = false
        ∧ (clean_expression e).contains '÷' = false)
    ∧ (∀ (e : Str) (c : Char), c ∈ clean_expression e → isPySpace c = true → c = ' ')
    ∧ (∀ e : Str, List.Chain' wsRel (clean_expression e))
    ∧ clean_expression (" $$  a  ×  b \t c  $$ ".data) = ("a * b c".data) := by
  refine ⟨by decide, ?_, ?_, ?_, by decide⟩
  · intro e
    constructor
    · rw [Bool.eq_false_iff]
      intro hcontra
      have hmem := List.elem_iff.mp hcontra
      unfold clean_expression at hmem
      rw [List.mem_map] at hmem
      obtain ⟨c1, hc1, he2⟩ := hmem
      rw [List.mem_map] at hc1
      obtain ⟨d, _, he1⟩ := hc1
      by_cases h1 : c1 = '÷'
      · subst h1
        simp at he2
      · rw [if_neg (by simpa using h1)] at he2
        subst he2
        by_cases h2 : d = '×'
        · subst h2
          simp at he1
        · rw [if_neg (by simpa using h2)] at he1
          exact h2 he1
    · rw [Bool.eq_false_iff]
      intro hcontra
      have hmem := List.elem_iff.mp hcontra
      unfold clean_expression at hmem
      rw [List.mem_map] at hmem
      obtain ⟨c1, _, he2⟩ := hmem
      by_cases h1 : c1 = '÷'
      · subst h1
        simp at he2
      · rw [if_neg (by simpa using h1)] at he2
        exact h1 he2
  · intro e c hc hsp
    unfold clean_expression at hc
    rw [List.mem_map] at hc
    obtain ⟨c1, hc1, he2⟩ := hc
    rw [List.mem_map] at hc1
    obtain ⟨d, hd, he1⟩ := hc1
    have hcc1 : c = c1 := by
      by_cases h1 : c1 = '÷'
      · subst h1
        simp only [beq_self_eq_true, if_true] at he2
        subst he2
        exact absurd hsp (by decide)
      · rw [if_neg (by simpa using h1)] at he2
        exact he2.symm
    subst hcc1
    have hcd : c = d := by
      by_cases h2 : d = '×'
      · subst h2
        simp only [beq_self_eq_true, if_true] at he1
        subst he1
        exact absurd hsp (by decide)
      · rw [if_neg (by simpa using h2)] at he1
        exact he1.symm
    subst hcd
    have hd2 := mem_of_mem_stripDollars _ _ hd
    rcases mem_subRuns_class isPySpace [' '] (pyStrip e) c hd2 with h | h
    · exact List.mem_singleton.mp h
    · rw [h.2] at hsp
      exact absurd hsp (by simp)
  · intro e
    unfold clean_expression
    refine chain'_wsRel_map _ _ normDiv_space ?_
    refine chain'_wsRel_map _ _ normMul_space ?_
    exact chain'_stripDollars _ (collapseWs_chain (pyStrip e))

theorem clean_expression_normalizes_witness :
    ((' ' ∈ clean_expression ("a b".data)) ∧ isPySpace ' ' = true)
    ∧ (' ' : Char) = ' ' :=
  ⟨⟨by decide, by decide⟩,
    clean_expression_normalizes.2.2.1 ("a b".data) ' ' (by decide) (by decide)⟩
